import Mathlib

/-!
Verification of the whale-c compiler front end (tokenizer and
recursive-descent parser, `src/lex.rs` and `src/parse.rs`) against its
natural-language specification.

The source operates on the bytes of the input string (`src.as_bytes()`),
so source text is embedded as `List Nat` (byte values).  The lexer's
`i128` accumulator is embedded as `Int` with explicit wrapping at
2^128.  The parser's recursive descent is embedded with an explicit
fuel parameter; fuel exhaustion yields a distinguished error that is
proved unreachable for the canonical fuel where a claim needs it.
-/

namespace WhaleC

instance {E A : Type} [DecidableEq E] [DecidableEq A] : DecidableEq (Except E A) :=
  fun x y =>
    match x, y with
    | .ok a, .ok b =>
      match decEq a b with
      | .isTrue h => .isTrue (by rw [h])
      | .isFalse h => .isFalse (by intro hc; cases hc; exact h rfl)
    | .error a, .error b =>
      match decEq a b with
      | .isTrue h => .isTrue (by rw [h])
      | .isFalse h => .isFalse (by intro hc; cases hc; exact h rfl)
    | .ok _, .error _ => .isFalse (by intro hc; cases hc)
    | .error _, .ok _ => .isFalse (by intro hc; cases hc)

/-- Bytes of a string literal (the Rust lexer works on `src.as_bytes()`;
all inputs of interest are ASCII, where code points and bytes agree). -/
def strB (s : String) : List Nat := s.data.map Char.toNat

/-- Token kinds, embedding `enum Tok` from `src/lex.rs`.  Identifier names
are carried as byte lists, matching the `String` payload byte-for-byte. -/
inductive Tok where
  | int | unsigned | void | const | returnT | ifT | elseT | whileT
  | breakT | continueT | trueT | falseT
  | ident (name : List Nat)
  | intLit (value : Int)
  | lParen | rParen | lBrace | rBrace | semi | comma
  | assign | eqEq | notEq | lt | le | gt | ge
  | plus | minus | star
  | eof
deriving DecidableEq, Repr

/-- Embedding of `struct LexError` (message, 1-based line and column). -/
structure LexError where
  msg : String
  line : Nat
  col : Nat
deriving DecidableEq, Repr

/-- Wrapping to the two's-complement range of `i128`, the type of the
lexer's literal accumulator. -/
def wrap128 (v : Int) : Int := (v + 2 ^ 127) % 2 ^ 128 - 2 ^ 127

/-- Whitespace test of `skip_ws_and_comments` (space, tab, CR, LF). -/
def isWsB (b : Nat) : Bool := b = 32 || b = 9 || b = 13 || b = 10

/-- Byte test matching `u8::is_ascii_digit`. -/
def isDigitB (b : Nat) : Bool := 48 ≤ b && b ≤ 57

/-- Byte test matching `u8::is_ascii_alphabetic`. -/
def isAlphaB (b : Nat) : Bool := (65 ≤ b && b ≤ 90) || (97 ≤ b && b ≤ 122)

/-- Byte test matching `u8::is_ascii_alphanumeric(x) || x == b'_'`,
the identifier-continuation test of `next_tok`. -/
def isIdentContB (b : Nat) : Bool := isAlphaB b || isDigitB b || b = 95

/-- Position update of `Lexer::bump`: a newline advances the line and
resets the column to 1, any other byte advances the column. -/
def advancePos (b : Nat) (line col : Nat) : Nat × Nat :=
  if b = 10 then (line + 1, 1) else (line, col + 1)

/-- Inner whitespace loop of `skip_ws_and_comments`. -/
def skipWsRun : List Nat → Nat → Nat → List Nat × Nat × Nat
  | [], l, c => ([], l, c)
  | b :: rest, l, c =>
    if isWsB b then
      let p := advancePos b l c
      skipWsRun rest p.1 p.2
    else (b :: rest, l, c)

/-- Line-comment loop of `skip_ws_and_comments`: bump bytes (starting at
the `//` itself) until a newline is consumed or input ends. -/
def skipLineComment : List Nat → Nat → Nat → List Nat × Nat × Nat
  | [], l, c => ([], l, c)
  | b :: rest, l, c =>
    let p := advancePos b l c
    if b = 10 then (rest, p.1, p.2) else skipLineComment rest p.1 p.2

/-- Block-comment body scan of `skip_ws_and_comments`: the opening
slash-star has already been consumed; bump until the closing star-slash
(then consume it) or fail "unterminated block comment" at the position
reached after consuming the rest of the input. -/
def skipBlockBody : List Nat → Nat → Nat → Except LexError (List Nat × Nat × Nat)
  | s, l, c =>
    if s.take 2 = [42, 47] then .ok (s.drop 2, l, c + 2)
    else
      match s with
      | [] => .error ⟨"unterminated block comment", l, c⟩
      | b :: rest =>
        let p := advancePos b l c
        skipBlockBody rest p.1 p.2

/-- Outer loop of `skip_ws_and_comments`, with fuel for the finitely many
comment groups; 47 is a slash, 42 a star. -/
def skipWsAux : Nat → List Nat → Nat → Nat → Except LexError (List Nat × Nat × Nat)
  | 0, _, l, c => .error ⟨"out of fuel", l, c⟩
  | fuel + 1, s, l, c =>
    let r := skipWsRun s l c
    let s1 := r.1
    let l1 := r.2.1
    let c1 := r.2.2
    if s1.take 2 = [47, 47] then
      let r2 := skipLineComment s1 l1 c1
      skipWsAux fuel r2.1 r2.2.1 r2.2.2
    else if s1.take 2 = [47, 42] then
      match skipBlockBody (s1.drop 2) l1 (c1 + 2) with
      | .error e => .error e
      | .ok (s2, l2, c2) => skipWsAux fuel s2 l2 c2
    else .ok (s1, l1, c1)

/-- Embedding of `skip_ws_and_comments`; each comment group consumes at
least two bytes, so the canonical fuel is never exhausted. -/
def skipWsAndComments (s : List Nat) (l c : Nat) : Except LexError (List Nat × Nat × Nat) :=
  skipWsAux (s.length + 1) s l c

/-- Keyword table of `next_tok` (the `match text` at the end). -/
def kwLookup (w : List Nat) : Tok :=
  if w = strB "int" then .int
  else if w = strB "unsigned" then .unsigned
  else if w = strB "void" then .void
  else if w = strB "const" then .const
  else if w = strB "return" then .returnT
  else if w = strB "if" then .ifT
  else if w = strB "else" then .elseT
  else if w = strB "while" then .whileT
  else if w = strB "break" then .breakT
  else if w = strB "continue" then .continueT
  else if w = strB "true" then .trueT
  else if w = strB "false" then .falseT
  else .ident w

/-- Lowercase hex digit, for the escape forms of Rust's char Debug. -/
def hexDigitB (n : Nat) : Char := if n < 10 then Char.ofNat (48 + n) else Char.ofNat (87 + n)

/-- Rendering of `format!("{:?}", c as char)` in the lexer's
"unexpected char" message: the byte cast to a char (Latin-1), wrapped in
single quotes, with the named backslash escapes for nul, tab, newline,
carriage return, the single quote and the backslash; printable
characters appear literally and the rest get a minimal lowercase
`\u` escape.  In the byte range, the printable characters are the
visible ASCII range U+0020..U+007E together with U+00A1..U+00FF except
the soft hyphen U+00AD (U+007F and U+0080..U+009F are controls, U+00A0
is a separator), so the lead byte 0xC3 of a UTF-8 "é" is shown
literally as 'Ã'. -/
def rustCharDebug (b : Nat) : String :=
  if b = 0 then "'\\0'"
  else if b = 9 then "'\\t'"
  else if b = 10 then "'\\n'"
  else if b = 13 then "'\\r'"
  else if b = 39 then "'\\''"
  else if b = 92 then "'\\\\'"
  else if (32 ≤ b ∧ b ≤ 126) ∨ (161 ≤ b ∧ b ≤ 255 ∧ b ≠ 173) then
    String.mk [Char.ofNat 39, Char.ofNat b, Char.ofNat 39]
  else if b < 16 then String.mk ([Char.ofNat 39, '\\', 'u', '\x7b', hexDigitB b] ++ ['\x7d', Char.ofNat 39])
  else String.mk ([Char.ofNat 39, '\\', 'u', '\x7b', hexDigitB (b / 16), hexDigitB (b % 16)] ++ ['\x7d', Char.ofNat 39])

/-- Message of the lexer's unknown-character failure,
`format!("unexpected char: {:?}", c as char)`. -/
def unexpectedCharMsg (b : Nat) : String := "unexpected char: " ++ rustCharDebug b

/-- One step of the literal accumulation `v = v * 10 + (d - b'0') as i128`,
with `i128` wrapping. -/
def accDigit (v : Int) (d : Nat) : Int := wrap128 (v * 10 + ((d : Int) - 48))

/-- Token dispatch of `next_tok` after whitespace and comments are gone:
two-byte operators first (maximal munch), then single-byte punctuation
and operators, then number, then identifier or keyword, else the
"unexpected char" failure at the current position. -/
def lexCore : List Nat → Nat → Nat → Except LexError (Tok × List Nat × Nat × Nat)
  | [], l, c => .ok (.eof, [], l, c)
  | b :: rest, l, c =>
    let s := b :: rest
    if s.take 2 = [61, 61] then .ok (.eqEq, s.drop 2, l, c + 2)
    else if s.take 2 = [33, 61] then .ok (.notEq, s.drop 2, l, c + 2)
    else if s.take 2 = [60, 61] then .ok (.le, s.drop 2, l, c + 2)
    else if s.take 2 = [62, 61] then .ok (.ge, s.drop 2, l, c + 2)
    else if b = 40 then .ok (.lParen, rest, l, c + 1)
    else if b = 41 then .ok (.rParen, rest, l, c + 1)
    else if b = 123 then .ok (.lBrace, rest, l, c + 1)
    else if b = 125 then .ok (.rBrace, rest, l, c + 1)
    else if b = 59 then .ok (.semi, rest, l, c + 1)
    else if b = 44 then .ok (.comma, rest, l, c + 1)
    else if b = 61 then .ok (.assign, rest, l, c + 1)
    else if b = 60 then .ok (.lt, rest, l, c + 1)
    else if b = 62 then .ok (.gt, rest, l, c + 1)
    else if b = 43 then .ok (.plus, rest, l, c + 1)
    else if b = 45 then .ok (.minus, rest, l, c + 1)
    else if b = 42 then .ok (.star, rest, l, c + 1)
    else if isDigitB b then
      let run := s.takeWhile isDigitB
      let v := run.foldl accDigit 0
      .ok (.intLit v, s.dropWhile isDigitB, l, c + run.length)
    else if isAlphaB b || b = 95 then
      let run := s.takeWhile isIdentContB
      .ok (kwLookup run, s.dropWhile isIdentContB, l, c + run.length)
    else .error ⟨unexpectedCharMsg b, l, c⟩

/-- Embedding of `Lexer::next_tok`. -/
def nextTok (s : List Nat) (l c : Nat) : Except LexError (Tok × List Nat × Nat × Nat) :=
  match skipWsAndComments s l c with
  | .error e => .error e
  | .ok (s1, l1, c1) => lexCore s1 l1 c1

/-- Loop of `lex_all`: collect tokens until the first end-of-input token,
which is pushed and then the loop stops.  Each non-eof token consumes at
least one byte, so the canonical fuel is never exhausted. -/
def lexAllAux : Nat → List Nat → Nat → Nat → Except LexError (List Tok)
  | 0, _, l, c => .error ⟨"out of fuel", l, c⟩
  | fuel + 1, s, l, c =>
    match nextTok s l c with
    | .error e => .error e
    | .ok (t, s', l', c') =>
      if t = .eof then .ok [t]
      else
        match lexAllAux fuel s' l' c' with
        | .error e => .error e
        | .ok ts => .ok (t :: ts)

/-- Embedding of `lex_all` (lexer starts at line 1, column 1). -/
def lexAll (s : List Nat) : Except LexError (List Tok) :=
  lexAllAux (s.length + 1) s 1 1

/-! ## AST data model

Modelled from the spec: the AST value types live in the external `ir`
crate (`ir::lower_ast::frontend`), whose source is not part of this
repository; their variants and fields are taken from spec section 3 and
from every construction site in `src/parse.rs`. -/

/-- Modelled from the spec: `TypeRef`, tagged as `Int{bits, signed}` or
`Void`. -/
inductive TypeRef where
  | intT (bits : Nat) (signed : Bool)
  | void
deriving DecidableEq, Repr

/-- Modelled from the spec: literals, `Int{bits, signed, value}` or
`Bool(bool)`. -/
inductive Lit where
  | intL (bits : Nat) (signed : Bool) (value : Int)
  | boolL (b : Bool)
deriving DecidableEq, Repr

/-- Modelled from the spec: comparison operators of `Cmp`. -/
inductive CmpOpRef where
  | eq | ne | lt | le | gt | ge
deriving DecidableEq, Repr

/-- Modelled from the spec: binary arithmetic operators of `Binary`. -/
inductive BinOpRef where
  | add | sub | mul
deriving DecidableEq, Repr

/-- Modelled from the spec: expressions — literal, variable reference,
arithmetic binary node, comparison node. -/
inductive Expr where
  | lit (l : Lit)
  | var (name : List Nat)
  | binary (left : Expr) (op : BinOpRef) (right : Expr)
  | cmp (left : Expr) (op : CmpOpRef) (right : Expr)
deriving DecidableEq, Repr

/-- Modelled from the spec: statements; bodies are flattened statement
sequences, `If` and `While` own their nested sequences. -/
inductive Stmt where
  | varDecl (name : List Nat) (ty : TypeRef) (init : Option Expr)
  | constDecl (name : List Nat) (ty : TypeRef) (init : Expr)
  | assign (name : List Nat) (value : Expr)
  | exprStmt (e : Expr)
  | returnS (e : Option Expr)
  | ifS (cond : Expr) (thenBody : List Stmt) (elseBody : List Stmt)
  | whileS (cond : Expr) (body : List Stmt)
  | breakS
  | continueS
deriving Repr

/-- Modelled from the spec: a function parameter `{name, type}`. -/
structure Parameter where
  name : List Nat
  ty : TypeRef
deriving DecidableEq, Repr

/-- Modelled from the spec: a function `{name, parameters, return-type,
body}` with a flattened statement list body. -/
structure Function where
  name : List Nat
  parameters : List Parameter
  returnType : TypeRef
  body : List Stmt
deriving Repr

/-- Modelled from the spec: a global constant `{name, type, initializer}`. -/
structure GlobalConst where
  name : List Nat
  ty : TypeRef
  init : Expr
deriving Repr

/-- Modelled from the spec: a program, globals and functions in source
order. -/
structure Program where
  globals : List GlobalConst
  functions : List Function
deriving Repr

/-! ## Parser -/

/-- Embedding of `struct ParseError(String)`. -/
structure ParseError where
  msg : String
deriving DecidableEq, Repr

/-- Rust `Debug` rendering of a token, as interpolated into parse-error
messages by `format!("{:?}", tok)`. -/
def tokDebug : Tok → String
  | .int => "Int"
  | .unsigned => "Unsigned"
  | .void => "Void"
  | .const => "Const"
  | .returnT => "Return"
  | .ifT => "If"
  | .elseT => "Else"
  | .whileT => "While"
  | .breakT => "Break"
  | .continueT => "Continue"
  | .trueT => "True"
  | .falseT => "False"
  | .ident n => "Ident(\"" ++ String.mk (n.map Char.ofNat) ++ "\")"
  | .intLit v => "IntLit(" ++ toString v ++ ")"
  | .lParen => "LParen"
  | .rParen => "RParen"
  | .lBrace => "LBrace"
  | .rBrace => "RBrace"
  | .semi => "Semi"
  | .comma => "Comma"
  | .assign => "Assign"
  | .eqEq => "EqEq"
  | .notEq => "NotEq"
  | .lt => "Lt"
  | .le => "Le"
  | .gt => "Gt"
  | .ge => "Ge"
  | .plus => "Plus"
  | .minus => "Minus"
  | .star => "Star"
  | .eof => "Eof"

/-- Embedding of `struct Parser { toks, i }`: the owned token vector and
the cursor index. -/
structure ParserSt where
  toks : List Tok
  i : Nat
deriving DecidableEq, Repr

/-- Embedding of `Parser::peek`: the token at the cursor, or `Eof` when
the index is past the end (`unwrap_or(&Tok::Eof)`). -/
def peekT (st : ParserSt) : Tok := st.toks.getD st.i .eof

/-- Embedding of `Parser::peek2`: one token past the cursor, or `Eof`. -/
def peek2T (st : ParserSt) : Tok := st.toks.getD (st.i + 1) .eof

/-- Embedding of `Parser::bump`: the token at the cursor (or `Eof` past
the end) together with the state advanced by one. -/
def bumpT (st : ParserSt) : Tok × ParserSt :=
  (peekT st, ⟨st.toks, st.i + 1⟩)

/-- Embedding of `Parser::is_eof`. -/
def isEofT (st : ParserSt) : Bool := peekT st = .eof

/-- Embedding of `Parser::peek_is`. -/
def peekIs (st : ParserSt) (t : Tok) : Bool := peekT st = t

/-- Embedding of `Parser::expect`: bump and compare against the wanted
token, failing with a message naming both. -/
def expectT (st : ParserSt) (want : Tok) : Except ParseError ParserSt :=
  let r := bumpT st
  if r.1 = want then .ok r.2
  else .error ⟨"expected " ++ tokDebug want ++ ", got " ++ tokDebug r.1⟩

/-- Embedding of `Parser::expect_ident`. -/
def expectIdentT (st : ParserSt) : Except ParseError (List Nat × ParserSt) :=
  match bumpT st with
  | (.ident n, st') => .ok (n, st')
  | (other, _) => .error ⟨"expected identifier, got " ++ tokDebug other⟩

/-- Embedding of `Parser::parse_type`: an optional `unsigned` (clearing
the signedness flag) followed by `int` or `void`. -/
def parseType (st : ParserSt) : Except ParseError (TypeRef × ParserSt) :=
  let p : Bool × ParserSt :=
    if peekIs st .unsigned then (false, (bumpT st).2) else (true, st)
  match bumpT p.2 with
  | (.int, st2) => .ok (.intT 32 p.1, st2)
  | (.void, st2) => .ok (.void, st2)
  | (other, _) => .error ⟨"expected type, got " ++ tokDebug other⟩

/-- Embedding of `Parser::lit_i32`. -/
def litI32 (v : Int) : Expr := .lit (.intL 32 true v)

/-- Embedding of `Parser::ensure_bool`: keep comparisons and boolean
literals, coerce anything else to a not-equal test against zero. -/
def ensureBool (e : Expr) : Expr :=
  match e with
  | .cmp _ _ _ => e
  | .lit (.boolL _) => e
  | _ => .cmp e .ne (litI32 0)

/-- Message of the distinguished fuel-exhaustion parse error (no path of
the embedded parser produces it for the canonical fuel). -/
def fuelMsg : String := "out of fuel"

mutual

/-- Loop of `parse_translation_unit`: while not at `Eof`, parse a global
constant (on `const`) or a function, in source order. -/
def parseTUAux : Nat → ParserSt → List GlobalConst → List Function → Except ParseError Program
  | 0, _, _, _ => .error ⟨fuelMsg⟩
  | fuel + 1, st, gs, fs =>
    if isEofT st then .ok ⟨gs, fs⟩
    else if peekIs st .const then
      match parseGlobalConst fuel st with
      | .error e => .error e
      | .ok (g, st') => parseTUAux fuel st' (gs ++ [g]) fs
    else
      match parseFunction fuel st with
      | .error e => .error e
      | .ok (f, st') => parseTUAux fuel st' gs (fs ++ [f])

/-- Embedding of `Parser::parse_global_const`. -/
def parseGlobalConst : Nat → ParserSt → Except ParseError (GlobalConst × ParserSt)
  | 0, _ => .error ⟨fuelMsg⟩
  | fuel + 1, st =>
    match expectT st .const with
    | .error e => .error e
    | .ok st1 =>
      match parseType st1 with
      | .error e => .error e
      | .ok (ty, st2) =>
        match expectIdentT st2 with
        | .error e => .error e
        | .ok (name, st3) =>
          match expectT st3 .assign with
          | .error e => .error e
          | .ok st4 =>
            match parseExpr fuel st4 with
            | .error e => .error e
            | .ok (init, st5) =>
              match expectT st5 .semi with
              | .error e => .error e
              | .ok st6 => .ok (⟨name, ty, init⟩, st6)

/-- Embedding of `Parser::parse_function`. -/
def parseFunction : Nat → ParserSt → Except ParseError (Function × ParserSt)
  | 0, _ => .error ⟨fuelMsg⟩
  | fuel + 1, st =>
    match parseType st with
    | .error e => .error e
    | .ok (retTy, st1) =>
      match expectIdentT st1 with
      | .error e => .error e
      | .ok (name, st2) =>
        match expectT st2 .lParen with
        | .error e => .error e
        | .ok st3 =>
          let params :=
            if peekIs st3 .rParen then .ok ([], st3)
            else parseParams fuel st3 []
          match params with
          | .error e => .error e
          | .ok (ps, st4) =>
            match expectT st4 .rParen with
            | .error e => .error e
            | .ok st5 =>
              match parseBlock fuel st5 with
              | .error e => .error e
              | .ok (body, st6) => .ok (⟨name, ps, retTy, body⟩, st6)

/-- Parameter loop of `parse_function`: type and name, continuing past
each comma. -/
def parseParams : Nat → ParserSt → List Parameter → Except ParseError (List Parameter × ParserSt)
  | 0, _, _ => .error ⟨fuelMsg⟩
  | fuel + 1, st, acc =>
    match parseType st with
    | .error e => .error e
    | .ok (ty, st1) =>
      match expectIdentT st1 with
      | .error e => .error e
      | .ok (pname, st2) =>
        let acc' := acc ++ [⟨pname, ty⟩]
        if peekIs st2 .comma then parseParams fuel (bumpT st2).2 acc'
        else .ok (acc', st2)

/-- Embedding of `Parser::parse_block`: a brace-delimited statement list;
each parsed statement group is appended directly (block flattening). -/
def parseBlock : Nat → ParserSt → Except ParseError (List Stmt × ParserSt)
  | 0, _ => .error ⟨fuelMsg⟩
  | fuel + 1, st =>
    match expectT st .lBrace with
    | .error e => .error e
    | .ok st1 =>
      match parseBlockItems fuel st1 [] with
      | .error e => .error e
      | .ok (out, st2) =>
        match expectT st2 .rBrace with
        | .error e => .error e
        | .ok st3 => .ok (out, st3)

/-- Statement loop of `parse_block`: until the closing brace, append the
statements of each `parse_stmt` call. -/
def parseBlockItems : Nat → ParserSt → List Stmt → Except ParseError (List Stmt × ParserSt)
  | 0, _, _ => .error ⟨fuelMsg⟩
  | fuel + 1, st, out =>
    if peekIs st .rBrace then .ok (out, st)
    else
      match parseStmt fuel st with
      | .error e => .error e
      | .ok (part, st') => parseBlockItems fuel st' (out ++ part)

/-- Embedding of `Parser::parse_stmt_or_block`. -/
def parseStmtOrBlock : Nat → ParserSt → Except ParseError (List Stmt × ParserSt)
  | 0, _ => .error ⟨fuelMsg⟩
  | fuel + 1, st =>
    if peekIs st .lBrace then parseBlock fuel st
    else parseStmt fuel st

/-- Embedding of `Parser::parse_stmt`, returning a statement list (a
block in statement position contributes its statements directly). -/
def parseStmt : Nat → ParserSt → Except ParseError (List Stmt × ParserSt)
  | 0, _ => .error ⟨fuelMsg⟩
  | fuel + 1, st =>
    match peekT st with
    | .lBrace => parseBlock fuel st
    | .returnT =>
      let st1 := (bumpT st).2
      if peekIs st1 .semi then .ok ([.returnS none], (bumpT st1).2)
      else
        match parseExpr fuel st1 with
        | .error e => .error e
        | .ok (e, st2) =>
          match expectT st2 .semi with
          | .error e => .error e
          | .ok st3 => .ok ([.returnS (some e)], st3)
    | .const =>
      let st1 := (bumpT st).2
      match parseType st1 with
      | .error e => .error e
      | .ok (ty, st2) =>
        match expectIdentT st2 with
        | .error e => .error e
        | .ok (name, st3) =>
          match expectT st3 .assign with
          | .error e => .error e
          | .ok st4 =>
            match parseExpr fuel st4 with
            | .error e => .error e
            | .ok (init, st5) =>
              match expectT st5 .semi with
              | .error e => .error e
              | .ok st6 => .ok ([.constDecl name ty init], st6)
    | .int => parseVarDecl fuel st
    | .unsigned => parseVarDecl fuel st
    | .ifT =>
      let st1 := (bumpT st).2
      match expectT st1 .lParen with
      | .error e => .error e
      | .ok st2 =>
        match parseExpr fuel st2 with
        | .error e => .error e
        | .ok (condExpr, st3) =>
          let cond := ensureBool condExpr
          match expectT st3 .rParen with
          | .error e => .error e
          | .ok st4 =>
            match parseStmtOrBlock fuel st4 with
            | .error e => .error e
            | .ok (thenBody, st5) =>
              if peekIs st5 .elseT then
                match parseStmtOrBlock fuel (bumpT st5).2 with
                | .error e => .error e
                | .ok (elseBody, st6) => .ok ([.ifS cond thenBody elseBody], st6)
              else .ok ([.ifS cond thenBody []], st5)
    | .whileT =>
      let st1 := (bumpT st).2
      match expectT st1 .lParen with
      | .error e => .error e
      | .ok st2 =>
        match parseExpr fuel st2 with
        | .error e => .error e
        | .ok (condExpr, st3) =>
          let cond := ensureBool condExpr
          match expectT st3 .rParen with
          | .error e => .error e
          | .ok st4 =>
            match parseStmtOrBlock fuel st4 with
            | .error e => .error e
            | .ok (body, st5) => .ok ([.whileS cond body], st5)
    | .breakT =>
      let st1 := (bumpT st).2
      match expectT st1 .semi with
      | .error e => .error e
      | .ok st2 => .ok ([.breakS], st2)
    | .continueT =>
      let st1 := (bumpT st).2
      match expectT st1 .semi with
      | .error e => .error e
      | .ok st2 => .ok ([.continueS], st2)
    | .ident _ =>
      if peek2T st = .assign then
        match expectIdentT st with
        | .error e => .error e
        | .ok (name, st1) =>
          match expectT st1 .assign with
          | .error e => .error e
          | .ok st2 =>
            match parseExpr fuel st2 with
            | .error e => .error e
            | .ok (value, st3) =>
              match expectT st3 .semi with
              | .error e => .error e
              | .ok st4 => .ok ([.assign name value], st4)
      else parseExprStmt fuel st
    | _ => parseExprStmt fuel st

/-- Variable-declaration arm of `parse_stmt` (first token `int` or
`unsigned`): a type, a name, an optional `= expr` initializer. -/
def parseVarDecl : Nat → ParserSt → Except ParseError (List Stmt × ParserSt)
  | 0, _ => .error ⟨fuelMsg⟩
  | fuel + 1, st =>
    match parseType st with
    | .error e => .error e
    | .ok (ty, st1) =>
      match expectIdentT st1 with
      | .error e => .error e
      | .ok (name, st2) =>
        let initR : Except ParseError (Option Expr × ParserSt) :=
          if peekIs st2 .assign then
            match parseExpr fuel (bumpT st2).2 with
            | .error e => .error e
            | .ok (e, st3) => .ok (some e, st3)
          else .ok (none, st2)
        match initR with
        | .error e => .error e
        | .ok (init, st3) =>
          match expectT st3 .semi with
          | .error e => .error e
          | .ok st4 => .ok ([.varDecl name ty init], st4)

/-- Expression-statement fallback of `parse_stmt`. -/
def parseExprStmt : Nat → ParserSt → Except ParseError (List Stmt × ParserSt)
  | 0, _ => .error ⟨fuelMsg⟩
  | fuel + 1, st =>
    match parseExpr fuel st with
    | .error e => .error e
    | .ok (e, st1) =>
      match expectT st1 .semi with
      | .error e => .error e
      | .ok st2 => .ok ([.exprStmt e], st2)

/-- Embedding of `Parser::parse_expr` (an expression is a comparison). -/
def parseExpr : Nat → ParserSt → Except ParseError (Expr × ParserSt)
  | 0, _ => .error ⟨fuelMsg⟩
  | fuel + 1, st => parseCmp fuel st

/-- Embedding of `Parser::parse_cmp`: an additive expression followed by
at most one comparison operator and a second additive expression. -/
def parseCmp : Nat → ParserSt → Except ParseError (Expr × ParserSt)
  | 0, _ => .error ⟨fuelMsg⟩
  | fuel + 1, st =>
    match parseAdd fuel st with
    | .error e => .error e
    | .ok (left, st1) =>
      let op : Option CmpOpRef :=
        match peekT st1 with
        | .eqEq => some .eq
        | .notEq => some .ne
        | .lt => some .lt
        | .le => some .le
        | .gt => some .gt
        | .ge => some .ge
        | _ => none
      match op with
      | some o =>
        match parseAdd fuel (bumpT st1).2 with
        | .error e => .error e
        | .ok (right, st2) => .ok (.cmp left o right, st2)
      | none => .ok (left, st1)

/-- Embedding of `Parser::parse_add`. -/
def parseAdd : Nat → ParserSt → Except ParseError (Expr × ParserSt)
  | 0, _ => .error ⟨fuelMsg⟩
  | fuel + 1, st =>
    match parseMul fuel st with
    | .error e => .error e
    | .ok (e, st1) => parseAddLoop fuel e st1

/-- Loop of `parse_add`: fold further `+`/`-` multiplicative operands
onto the left (left associativity). -/
def parseAddLoop : Nat → Expr → ParserSt → Except ParseError (Expr × ParserSt)
  | 0, _, _ => .error ⟨fuelMsg⟩
  | fuel + 1, e, st =>
    let op : Option BinOpRef :=
      match peekT st with
      | .plus => some .add
      | .minus => some .sub
      | _ => none
    match op with
    | some o =>
      match parseMul fuel (bumpT st).2 with
      | .error e => .error e
      | .ok (r, st1) => parseAddLoop fuel (.binary e o r) st1
    | none => .ok (e, st)

/-- Embedding of `Parser::parse_mul`. -/
def parseMul : Nat → ParserSt → Except ParseError (Expr × ParserSt)
  | 0, _ => .error ⟨fuelMsg⟩
  | fuel + 1, st =>
    match parsePrimary fuel st with
    | .error e => .error e
    | .ok (e, st1) => parseMulLoop fuel e st1

/-- Loop of `parse_mul`: fold further `*` primary operands onto the left. -/
def parseMulLoop : Nat → Expr → ParserSt → Except ParseError (Expr × ParserSt)
  | 0, _, _ => .error ⟨fuelMsg⟩
  | fuel + 1, e, st =>
    if peekIs st .star then
      match parsePrimary fuel (bumpT st).2 with
      | .error e => .error e
      | .ok (r, st1) => parseMulLoop fuel (.binary e .mul r) st1
    else .ok (e, st)

/-- Embedding of `Parser::parse_primary`: integer literal, variable,
boolean literal, or parenthesized expression. -/
def parsePrimary : Nat → ParserSt → Except ParseError (Expr × ParserSt)
  | 0, _ => .error ⟨fuelMsg⟩
  | fuel + 1, st =>
    match bumpT st with
    | (.intLit v, st1) => .ok (.lit (.intL 32 true v), st1)
    | (.ident name, st1) => .ok (.var name, st1)
    | (.trueT, st1) => .ok (.lit (.boolL true), st1)
    | (.falseT, st1) => .ok (.lit (.boolL false), st1)
    | (.lParen, st1) =>
      match parseExpr fuel st1 with
      | .error e => .error e
      | .ok (e, st2) =>
        match expectT st2 .rParen with
        | .error e => .error e
        | .ok st3 => .ok (e, st3)
    | (other, _) => .error ⟨"expected primary, got " ++ tokDebug other⟩

end

/-- Canonical parser fuel: ample for the call chains of the recursive
descent, which consume at least one token for every eight nested calls. -/
def pFuel (toks : List Tok) : Nat := 8 * (toks.length + 1) + 10

/-- Parse a full program from a token vector, with canonical fuel. -/
def parseProgram (toks : List Tok) : Except ParseError Program :=
  parseTUAux (pFuel toks) ⟨toks, 0⟩ [] []

/-- Rust `Display` of a lexical error, `"{msg} ({line}:{col})"`, used
when `parse_translation_unit` maps a lexer failure into a `ParseError`. -/
def lexErrDisplay (e : LexError) : String :=
  e.msg ++ " (" ++ toString e.line ++ ":" ++ toString e.col ++ ")"

/-- Embedding of `parse_translation_unit`: lex the whole source, then
parse the token sequence into a program. -/
def parseTranslationUnit (src : List Nat) : Except ParseError Program :=
  match lexAll src with
  | .error e => .error ⟨lexErrDisplay e⟩
  | .ok toks => parseProgram toks

/-- Bytes that can begin a token: operator or punctuation bytes
(including the bang that begins `!=`), decimal digits, ASCII letters,
and the underscore. -/
def tokenStartByte (b : Nat) : Bool :=
  b ∈ ([40, 41, 123, 125, 59, 44, 61, 60, 62, 43, 45, 42, 33] : List Nat) ||
    isDigitB b || isAlphaB b || b = 95

/-- Exact natural-number digit accumulation, the mathematical value of a
digit byte sequence extended onto a running value. -/
def digitValFrom (a : Nat) (ds : List Nat) : Nat :=
  ds.foldl (fun x b => 10 * x + (b - 48)) a

/-- Mathematical value of a decimal digit byte sequence. -/
def digitVal (ds : List Nat) : Nat := digitValFrom 0 ds

/-- Tokens remaining before the cursor passes the end, the decreasing
measure of the recursive descent. -/
def μp (st : ParserSt) : Nat := st.toks.length + 1 - st.i

/-- Postcondition of every token-consuming parse routine: same token
vector, cursor strictly advanced, cursor still within bounds. -/
def PostS (st st' : ParserSt) : Prop :=
  st'.toks = st.toks ∧ st.i < st'.i ∧ st'.i ≤ st.toks.length

/-- Postcondition of the parse loops, which may also succeed without
consuming anything. -/
def PostL (st st' : ParserSt) : Prop :=
  st'.toks = st.toks ∧ st.i ≤ st'.i ∧ (st'.i = st.i ∨ st'.i ≤ st.toks.length)

/-- An expression producible by the multiplicative level `parse_mul`
(at some fuel, from some parser state). -/
def MulOut (e : Expr) : Prop :=
  ∃ fuel st st', parseMul fuel st = .ok (e, st')

/-- Expressions of the shape built by the additive level: an output of
the multiplicative level, extended on the left by `+`/`-` nodes whose
right operands are outputs of the multiplicative level. -/
inductive AddShape : Expr → Prop where
  | base {e : Expr} : MulOut e → AddShape e
  | step {l r : Expr} {op : BinOpRef} : AddShape l → (op = .add ∨ op = .sub) →
      MulOut r → AddShape (.binary l op r)

/-! ## Lexer lemmas -/

theorem skipWsRun_cons_neg {b : Nat} {rest : List Nat} {l c : Nat} (h : isWsB b = false) :
    skipWsRun (b :: rest) l c = (b :: rest, l, c) := by
  simp [skipWsRun, h]

/-- A byte that is neither whitespace nor a slash passes the
whitespace-and-comment skipper untouched. -/
theorem skipWs_plain {b : Nat} {rest : List Nat} {l c : Nat}
    (hws : isWsB b = false) (h47 : b ≠ 47) :
    skipWsAndComments (b :: rest) l c = .ok (b :: rest, l, c) := by
  show skipWsAux (rest.length + 1 + 1) (b :: rest) l c = .ok (b :: rest, l, c)
  simp [skipWsAux, skipWsRun_cons_neg hws, List.take_succ_cons, h47]

theorem skipWs_nil {l c : Nat} : skipWsAndComments [] l c = .ok ([], l, c) := rfl

/-- `next_tok` on empty remaining input produces the end-of-input token. -/
theorem nextTok_nil {l c : Nat} : nextTok [] l c = .ok (.eof, [], l, c) := rfl

/-- Token dispatch at a decimal digit: the maximal digit run is consumed
and accumulated into a single integer-literal token. -/
theorem lexCore_digit {b : Nat} {rest : List Nat} {l c : Nat}
    (h1 : 48 ≤ b) (h2 : b ≤ 57) :
    lexCore (b :: rest) l c =
      .ok (.intLit (((b :: rest).takeWhile isDigitB).foldl accDigit 0),
          (b :: rest).dropWhile isDigitB, l,
          c + ((b :: rest).takeWhile isDigitB).length) := by
  have hb : isDigitB b = true := by simp [isDigitB]; omega
  have n33 : b ≠ 33 := by omega
  have n40 : b ≠ 40 := by omega
  have n41 : b ≠ 41 := by omega
  have n42 : b ≠ 42 := by omega
  have n43 : b ≠ 43 := by omega
  have n44 : b ≠ 44 := by omega
  have n45 : b ≠ 45 := by omega
  have n59 : b ≠ 59 := by omega
  have n60 : b ≠ 60 := by omega
  have n61 : b ≠ 61 := by omega
  have n62 : b ≠ 62 := by omega
  have n123 : b ≠ 123 := by omega
  have n125 : b ≠ 125 := by omega
  simp [lexCore, List.take_succ_cons, hb,
    n33, n40, n41, n42, n43, n44, n45, n59, n60, n61, n62, n123, n125]

/-- Every success of the `lex_all` loop decomposes as some eof-free
tokens followed by exactly one end-of-input token. -/
theorem lexAllAux_end_marker : ∀ (fuel : Nat) (s : List Nat) (l c : Nat) (ts : List Tok),
    lexAllAux fuel s l c = .ok ts → ∃ ts₀, ts = ts₀ ++ [Tok.eof] ∧ Tok.eof ∉ ts₀ := by
  intro fuel
  induction fuel with
  | zero => intro s l c ts h; simp [lexAllAux] at h
  | succ fuel ih =>
    intro s l c ts h
    rw [lexAllAux] at h
    cases hnt : nextTok s l c with
    | error e => rw [hnt] at h; exact absurd h (by simp)
    | ok r =>
      obtain ⟨t, s', l', c'⟩ := r
      rw [hnt] at h
      try dsimp only at h
      by_cases ht : t = Tok.eof
      · subst ht
        rw [if_pos rfl] at h
        simp only [Except.ok.injEq] at h
        exact ⟨[], by simp [← h], by simp⟩
      · rw [if_neg ht] at h
        cases hrec : lexAllAux fuel s' l' c' with
        | error e => rw [hrec] at h; exact absurd h (by simp)
        | ok ts1 =>
          rw [hrec] at h
          simp only [Except.ok.injEq] at h
          obtain ⟨ts₀, hts, hnm⟩ := ih s' l' c' ts1 hrec
          refine ⟨t :: ts₀, ?_, ?_⟩
          · rw [← h, hts]; rfl
          · simp only [List.mem_cons, not_or]
            exact ⟨fun hc => ht hc.symm, hnm⟩

/-- The running value of the digit accumulation never decreases as more
digits are folded in. -/
theorem digitValFrom_ge (ds : List Nat) : ∀ (a : Nat), a ≤ digitValFrom a ds := by
  induction ds with
  | nil => intro a; simp [digitValFrom]
  | cons d t ih =>
    intro a
    simp only [digitValFrom, List.foldl_cons]
    calc a ≤ 10 * a + (d - 48) := by omega
    _ ≤ _ := ih (10 * a + (d - 48))

/-- Wrapping at the `i128` range is the identity on values inside it. -/
theorem wrap128_id {x : Int} (h0 : 0 ≤ x) (h1 : x ≤ 2 ^ 127 - 1) : wrap128 x = x := by
  have hK : (0 : Int) < 2 ^ 127 := by positivity
  have h2 : (2 : Int) ^ 128 = 2 ^ 127 * 2 := by rw [← pow_succ]
  unfold wrap128
  rw [Int.emod_eq_of_lt (by omega) (by omega)]
  omega

theorem natCast_le_twoPow127 {n : Nat} (h : n ≤ 2 ^ 127 - 1) : (n : Int) ≤ 2 ^ 127 - 1 := by
  have h1 : (1 : Nat) ≤ 2 ^ 127 := Nat.one_le_two_pow
  have h2 : (n : Int) ≤ ((2 ^ 127 - 1 : Nat) : Int) := by exact_mod_cast h
  have h3 : ((2 ^ 127 - 1 : Nat) : Int) = 2 ^ 127 - 1 := by
    rw [Nat.cast_sub h1]; push_cast
  rwa [h3] at h2

/-- The wrapping `i128` accumulation agrees with the exact natural-number
accumulation whenever the final value is in the `i128` range. -/
theorem digitFold_wrap_eq (ds : List Nat) : ∀ (a : Nat),
    digitValFrom a ds ≤ 2 ^ 127 - 1 →
    (∀ b ∈ ds, 48 ≤ b) →
    ds.foldl accDigit (a : Int) = ((digitValFrom a ds : Nat) : Int) := by
  induction ds with
  | nil => intro a _ _; simp [digitValFrom]
  | cons d t ih =>
    intro a hfit hd
    have hd48 : 48 ≤ d := hd d (by simp)
    simp only [digitValFrom, List.foldl_cons] at hfit ⊢
    have hmid : (10 * a + (d - 48) : Nat) ≤ 2 ^ 127 - 1 := by
      have := digitValFrom_ge t (10 * a + (d - 48))
      simp only [digitValFrom] at this hfit
      omega
    have hstep : ((a : Int) * 10 + ((d : Int) - 48)) = ((10 * a + (d - 48) : Nat) : Int) := by
      omega
    have hwrap : accDigit (a : Int) d = ((10 * a + (d - 48) : Nat) : Int) := by
      unfold accDigit
      rw [hstep]
      exact wrap128_id (by positivity) (natCast_le_twoPow127 hmid)
    rw [hwrap]
    exact ih (10 * a + (d - 48)) hfit (fun b hb => hd b (by simp [hb]))

/-- The `lex_all` loop on empty remaining input emits the single
end-of-input token. -/
theorem lexAllAux_nil (n l c : Nat) : lexAllAux (n + 1) [] l c = .ok [Tok.eof] := by
  rw [lexAllAux]
  rfl

/-! ## Parser lemmas -/

/-- A successful `expect` means the wanted token was at the cursor, and
the cursor advanced by one. -/
theorem expectT_ok {st : ParserSt} {w : Tok} {st' : ParserSt}
    (h : expectT st w = .ok st') : peekT st = w ∧ st' = ⟨st.toks, st.i + 1⟩ := by
  unfold expectT bumpT at h
  by_cases hc : peekT st = w
  · rw [if_pos hc] at h
    simp only [Except.ok.injEq] at h
    exact ⟨hc, h.symm⟩
  · rw [if_neg hc] at h
    exact absurd h (by simp)

/-- `expect_ident` at an identifier returns its name and advances by one. -/
theorem expectIdentT_ident {st : ParserSt} {name : List Nat}
    (h : peekT st = .ident name) :
    expectIdentT st = .ok (name, ⟨st.toks, st.i + 1⟩) := by
  unfold expectIdentT bumpT
  rw [h]

/-- A cursor looking at anything but `Eof` is within bounds. -/
theorem peekT_ne_eof_lt (st : ParserSt) (h : peekT st ≠ .eof) : st.i < st.toks.length := by
  by_contra hc
  push_neg at hc
  exact h (by simp [peekT, List.getD, List.getElem?_eq_none hc])

/-- Advancing the cursor by one over a non-`Eof` token stays in bounds. -/
theorem postS_bump1 (st : ParserSt) (h : peekT st ≠ .eof) :
    PostS st ⟨st.toks, st.i + 1⟩ :=
  ⟨rfl, Nat.lt_succ_self _, peekT_ne_eof_lt _ h⟩

/-- A successful `expect` of a non-`Eof` token consumes it in bounds. -/
theorem expectT_post {st : ParserSt} {w : Tok} {st' : ParserSt} (hw : w ≠ .eof)
    (h : expectT st w = .ok st') : PostS st st' := by
  obtain ⟨hp, rfl⟩ := expectT_ok h
  exact postS_bump1 st (by rw [hp]; exact hw)

theorem PostS.trans {a b c : ParserSt} (h1 : PostS a b) (h2 : PostS b c) : PostS a c := by
  obtain ⟨e1, l1, u1⟩ := h1
  obtain ⟨e2, l2, u2⟩ := h2
  rw [e1] at e2 u2
  exact ⟨e2, by omega, u2⟩

/-- A consuming step followed by a loop step still consumes in bounds. -/
theorem PostS.transL {a b c : ParserSt} (h1 : PostS a b) (h2 : PostL b c) : PostS a c := by
  obtain ⟨e1, l1, u1⟩ := h1
  obtain ⟨e2, l2, u2⟩ := h2
  rw [e1] at e2
  refine ⟨e2, by omega, ?_⟩
  rcases u2 with h | h
  · omega
  · rw [e1] at h; omega

theorem PostL.ofS {a b : ParserSt} (h : PostS a b) : PostL a b :=
  ⟨h.1, Nat.le_of_lt h.2.1, Or.inr h.2.2⟩

theorem PostL_self {a : ParserSt} : PostL a a := ⟨Eq.refl _, Nat.le_refl _, Or.inl (Eq.refl _)⟩

theorem PostL.transS {a b c : ParserSt} (h1 : PostL a b) (h2 : PostS b c) : PostS a c := by
  obtain ⟨e1, l1, u1⟩ := h1
  obtain ⟨e2, l2, u2⟩ := h2
  rw [e1] at e2 u2
  exact ⟨e2, by omega, u2⟩

/-- A successful `expect_ident` consumes the identifier in bounds. -/
theorem expectIdentT_post {st : ParserSt} {name : List Nat} {st' : ParserSt}
    (h : expectIdentT st = .ok (name, st')) : PostS st st' := by
  unfold expectIdentT bumpT at h
  split at h
  · next n st1 hpair =>
    simp only [Prod.mk.injEq] at hpair
    simp only [Except.ok.injEq, Prod.mk.injEq] at h
    obtain ⟨-, rfl⟩ := h
    rw [← hpair.2]
    exact postS_bump1 st (by rw [hpair.1]; simp)
  · exact absurd h (by simp)

/-- A successful `parse_type` consumes one or two tokens in bounds. -/
theorem parseType_post {st : ParserSt} {ty : TypeRef} {st' : ParserSt}
    (h : parseType st = .ok (ty, st')) : PostS st st' := by
  unfold parseType bumpT at h
  try dsimp only at h
  by_cases hu : peekIs st .unsigned
  · rw [if_pos hu] at h
    try dsimp only at h
    have hu' : peekT st = .unsigned := of_decide_eq_true hu
    have h1 : PostS st ⟨st.toks, st.i + 1⟩ := postS_bump1 _ (by rw [hu']; simp)
    split at h
    · next st2 hpk =>
      simp only [Prod.mk.injEq] at hpk
      simp only [Except.ok.injEq, Prod.mk.injEq] at h
      obtain ⟨-, rfl⟩ := h
      rw [← hpk.2]
      exact h1.trans (postS_bump1 ⟨st.toks, st.i + 1⟩ (by rw [hpk.1]; simp))
    · next st2 hpk =>
      simp only [Prod.mk.injEq] at hpk
      simp only [Except.ok.injEq, Prod.mk.injEq] at h
      obtain ⟨-, rfl⟩ := h
      rw [← hpk.2]
      exact h1.trans (postS_bump1 ⟨st.toks, st.i + 1⟩ (by rw [hpk.1]; simp))
    · exact absurd h (by simp)
  · rw [if_neg hu] at h
    try dsimp only at h
    split at h
    · next st2 hpk =>
      simp only [Prod.mk.injEq] at hpk
      simp only [Except.ok.injEq, Prod.mk.injEq] at h
      obtain ⟨-, rfl⟩ := h
      rw [← hpk.2]
      exact postS_bump1 st (by rw [hpk.1]; simp)
    · next st2 hpk =>
      simp only [Prod.mk.injEq] at hpk
      simp only [Except.ok.injEq, Prod.mk.injEq] at h
      obtain ⟨-, rfl⟩ := h
      rw [← hpk.2]
      exact postS_bump1 st (by rw [hpk.1]; simp)
    · exact absurd h (by simp)

theorem peekIs_true {st : ParserSt} {t : Tok} (h : peekIs st t = true) : peekT st = t :=
  of_decide_eq_true h

/-- Progress of every parse routine: on success the token vector is
unchanged and the cursor advances within bounds (the loops may also
return with the cursor unmoved). -/
theorem parserProgress : ∀ fuel : Nat,
    (∀ st g st', parseGlobalConst fuel st = .ok (g, st') → PostS st st') ∧
    (∀ st fc st', parseFunction fuel st = .ok (fc, st') → PostS st st') ∧
    (∀ st acc ps st', parseParams fuel st acc = .ok (ps, st') → PostS st st') ∧
    (∀ st out ss st', parseBlockItems fuel st out = .ok (ss, st') → PostL st st') ∧
    (∀ st ss st', parseBlock fuel st = .ok (ss, st') → PostS st st') ∧
    (∀ st ss st', parseStmtOrBlock fuel st = .ok (ss, st') → PostS st st') ∧
    (∀ st ss st', parseStmt fuel st = .ok (ss, st') → PostS st st') ∧
    (∀ st ss st', parseVarDecl fuel st = .ok (ss, st') → PostS st st') ∧
    (∀ st ss st', parseExprStmt fuel st = .ok (ss, st') → PostS st st') ∧
    (∀ st e st', parseExpr fuel st = .ok (e, st') → PostS st st') ∧
    (∀ st e st', parseCmp fuel st = .ok (e, st') → PostS st st') ∧
    (∀ st e st', parseAdd fuel st = .ok (e, st') → PostS st st') ∧
    (∀ e0 st e st', parseAddLoop fuel e0 st = .ok (e, st') → PostL st st') ∧
    (∀ st e st', parseMul fuel st = .ok (e, st') → PostS st st') ∧
    (∀ e0 st e st', parseMulLoop fuel e0 st = .ok (e, st') → PostL st st') ∧
    (∀ st e st', parsePrimary fuel st = .ok (e, st') → PostS st st') := by
  intro fuel
  induction fuel with
  | zero =>
    refine ⟨?_, ?_, ?_, ?_, ?_, ?_, ?_, ?_, ?_, ?_, ?_, ?_, ?_, ?_, ?_, ?_⟩
    · intro st g st' h; rw [parseGlobalConst] at h; exact absurd h (by simp)
    · intro st fc st' h; rw [parseFunction] at h; exact absurd h (by simp)
    · intro st acc ps st' h; rw [parseParams] at h; exact absurd h (by simp)
    · intro st out ss st' h; rw [parseBlockItems] at h; exact absurd h (by simp)
    · intro st ss st' h; rw [parseBlock] at h; exact absurd h (by simp)
    · intro st ss st' h; rw [parseStmtOrBlock] at h; exact absurd h (by simp)
    · intro st ss st' h; rw [parseStmt] at h; exact absurd h (by simp)
    · intro st ss st' h; rw [parseVarDecl] at h; exact absurd h (by simp)
    · intro st ss st' h; rw [parseExprStmt] at h; exact absurd h (by simp)
    · intro st e st' h; rw [parseExpr] at h; exact absurd h (by simp)
    · intro st e st' h; rw [parseCmp] at h; exact absurd h (by simp)
    · intro st e st' h; rw [parseAdd] at h; exact absurd h (by simp)
    · intro e0 st e st' h; rw [parseAddLoop] at h; exact absurd h (by simp)
    · intro st e st' h; rw [parseMul] at h; exact absurd h (by simp)
    · intro e0 st e st' h; rw [parseMulLoop] at h; exact absurd h (by simp)
    · intro st e st' h; rw [parsePrimary] at h; exact absurd h (by simp)
  | succ fuel ih =>
    obtain ⟨ihGC, ihFn, ihPar, ihBI, ihBlk, ihSOB, ihStmt, ihVD, ihES, ihE, ihC,
      ihA, ihAL, ihM, ihML, ihP⟩ := ih
    refine ⟨?_, ?_, ?_, ?_, ?_, ?_, ?_, ?_, ?_, ?_, ?_, ?_, ?_, ?_, ?_, ?_⟩
    -- parseGlobalConst
    · intro st g st' h
      rw [parseGlobalConst] at h
      split at h
      · exact absurd h (by simp)
      · next st1 hc =>
        split at h
        · exact absurd h (by simp)
        · next ty st2 hty =>
          split at h
          · exact absurd h (by simp)
          · next name st3 hid =>
            split at h
            · exact absurd h (by simp)
            · next st4 ha =>
              split at h
              · exact absurd h (by simp)
              · next init st5 hx =>
                split at h
                · exact absurd h (by simp)
                · next st6 hs =>
                  simp only [Except.ok.injEq, Prod.mk.injEq] at h
                  obtain ⟨-, rfl⟩ := h
                  exact ((((expectT_post (by simp) hc).trans (parseType_post hty)).trans
                    (expectIdentT_post hid)).trans (expectT_post (by simp) ha)).trans
                    ((ihE _ _ _ hx).trans (expectT_post (by simp) hs))
    -- parseFunction
    · intro st fc st' h
      rw [parseFunction] at h
      split at h
      · exact absurd h (by simp)
      · next retTy st1 hty =>
        split at h
        · exact absurd h (by simp)
        · next name st2 hid =>
          split at h
          · exact absurd h (by simp)
          · next st3 hlp =>
            try dsimp only at h
            have h3 : PostS st st3 :=
              ((parseType_post hty).trans (expectIdentT_post hid)).trans
                (expectT_post (by simp) hlp)
            by_cases hrp : peekIs st3 .rParen
            · rw [if_pos hrp] at h
              try dsimp only at h
              split at h
              · exact absurd h (by simp)
              · next st5 hrp2 =>
                split at h
                · exact absurd h (by simp)
                · next body st6 hbl =>
                  simp only [Except.ok.injEq, Prod.mk.injEq] at h
                  obtain ⟨-, rfl⟩ := h
                  exact (h3.trans (expectT_post (by simp) hrp2)).trans (ihBlk _ _ _ hbl)
            · rw [if_neg hrp] at h
              split at h
              · exact absurd h (by simp)
              · next ps st4 hpar =>
                split at h
                · exact absurd h (by simp)
                · next st5 hrp2 =>
                  split at h
                  · exact absurd h (by simp)
                  · next body st6 hbl =>
                    simp only [Except.ok.injEq, Prod.mk.injEq] at h
                    obtain ⟨-, rfl⟩ := h
                    exact ((h3.trans (ihPar _ _ _ _ hpar)).trans
                      (expectT_post (by simp) hrp2)).trans (ihBlk _ _ _ hbl)
    -- parseParams
    · intro st acc ps st' h
      rw [parseParams] at h
      split at h
      · exact absurd h (by simp)
      · next ty st1 hty =>
        split at h
        · exact absurd h (by simp)
        · next pname st2 hid =>
          try dsimp only at h
          have h2 : PostS st st2 := (parseType_post hty).trans (expectIdentT_post hid)
          by_cases hc : peekIs st2 .comma
          · rw [if_pos hc] at h
            have hne : peekT st2 ≠ .eof := by rw [peekIs_true hc]; simp
            exact (h2.trans (postS_bump1 _ hne)).trans (ihPar _ _ _ _ h)
          · rw [if_neg hc] at h
            simp only [Except.ok.injEq, Prod.mk.injEq] at h
            obtain ⟨-, rfl⟩ := h
            exact h2
    -- parseBlockItems
    · intro st out ss st' h
      rw [parseBlockItems] at h
      by_cases hrb : peekIs st .rBrace
      · rw [if_pos hrb] at h
        simp only [Except.ok.injEq, Prod.mk.injEq] at h
        obtain ⟨-, rfl⟩ := h
        exact PostL_self
      · rw [if_neg hrb] at h
        split at h
        · exact absurd h (by simp)
        · next part st1 hx =>
          exact PostL.ofS ((ihStmt _ _ _ hx).transL (ihBI _ _ _ _ h))
    -- parseBlock
    · intro st ss st' h
      rw [parseBlock] at h
      split at h
      · exact absurd h (by simp)
      · next st1 hlb =>
        split at h
        · exact absurd h (by simp)
        · next out st2 hbi =>
          split at h
          · exact absurd h (by simp)
          · next st3 hrb =>
            simp only [Except.ok.injEq, Prod.mk.injEq] at h
            obtain ⟨-, rfl⟩ := h
            exact ((expectT_post (by simp) hlb).transL (ihBI _ _ _ _ hbi)).trans
              (expectT_post (by simp) hrb)
    -- parseStmtOrBlock
    · intro st ss st' h
      rw [parseStmtOrBlock] at h
      by_cases hlb : peekIs st .lBrace
      · rw [if_pos hlb] at h; exact ihBlk _ _ _ h
      · rw [if_neg hlb] at h; exact ihStmt _ _ _ h
    -- parseStmt
    · intro st ss st' h
      rw [parseStmt] at h
      split at h
      -- lBrace
      · exact ihBlk _ _ _ h
      -- returnT
      · next hpk =>
        try dsimp only at h
        have hne : peekT st ≠ .eof := by rw [hpk]; simp
        by_cases hsemi : peekIs (bumpT st).2 .semi
        · rw [if_pos hsemi] at h
          simp only [Except.ok.injEq, Prod.mk.injEq] at h
          obtain ⟨-, rfl⟩ := h
          have hne1 : peekT (bumpT st).2 ≠ .eof := by rw [peekIs_true hsemi]; simp
          exact (postS_bump1 _ hne).trans (postS_bump1 _ hne1)
        · rw [if_neg hsemi] at h
          split at h
          · exact absurd h (by simp)
          · next e st2 hx =>
            split at h
            · exact absurd h (by simp)
            · next st3 hs =>
              simp only [Except.ok.injEq, Prod.mk.injEq] at h
              obtain ⟨-, rfl⟩ := h
              exact ((postS_bump1 _ hne).trans (ihE _ _ _ hx)).trans
                (expectT_post (by simp) hs)
      -- const
      · next hpk =>
        try dsimp only at h
        have hne : peekT st ≠ .eof := by rw [hpk]; simp
        split at h
        · exact absurd h (by simp)
        · next ty st2 hty =>
          split at h
          · exact absurd h (by simp)
          · next name st3 hid =>
            split at h
            · exact absurd h (by simp)
            · next st4 ha =>
              split at h
              · exact absurd h (by simp)
              · next init st5 hx =>
                split at h
                · exact absurd h (by simp)
                · next st6 hs =>
                  simp only [Except.ok.injEq, Prod.mk.injEq] at h
                  obtain ⟨-, rfl⟩ := h
                  exact ((((postS_bump1 _ hne).trans (parseType_post hty)).trans
                    (expectIdentT_post hid)).trans (expectT_post (by simp) ha)).trans
                    ((ihE _ _ _ hx).trans (expectT_post (by simp) hs))
      -- int
      · exact ihVD _ _ _ h
      -- unsigned
      · exact ihVD _ _ _ h
      -- ifT
      · next hpk =>
        try dsimp only at h
        have hne : peekT st ≠ .eof := by rw [hpk]; simp
        split at h
        · exact absurd h (by simp)
        · next st2 hlp =>
          split at h
          · exact absurd h (by simp)
          · next condExpr st3 hx =>
            try dsimp only at h
            split at h
            · exact absurd h (by simp)
            · next st4 hrp =>
              split at h
              · exact absurd h (by simp)
              · next thenBody st5 htb =>
                have h5 : PostS st st5 :=
                  ((((postS_bump1 _ hne).trans (expectT_post (by simp) hlp)).trans
                    (ihE _ _ _ hx)).trans (expectT_post (by simp) hrp)).trans
                    (ihSOB _ _ _ htb)
                by_cases hel : peekIs st5 .elseT
                · rw [if_pos hel] at h
                  split at h
                  · exact absurd h (by simp)
                  · next elseBody st6 heb =>
                    simp only [Except.ok.injEq, Prod.mk.injEq] at h
                    obtain ⟨-, rfl⟩ := h
                    have hne5 : peekT st5 ≠ .eof := by rw [peekIs_true hel]; simp
                    exact (h5.trans (postS_bump1 _ hne5)).trans (ihSOB _ _ _ heb)
                · rw [if_neg hel] at h
                  simp only [Except.ok.injEq, Prod.mk.injEq] at h
                  obtain ⟨-, rfl⟩ := h
                  exact h5
      -- whileT
      · next hpk =>
        try dsimp only at h
        have hne : peekT st ≠ .eof := by rw [hpk]; simp
        split at h
        · exact absurd h (by simp)
        · next st2 hlp =>
          split at h
          · exact absurd h (by simp)
          · next condExpr st3 hx =>
            try dsimp only at h
            split at h
            · exact absurd h (by simp)
            · next st4 hrp =>
              split at h
              · exact absurd h (by simp)
              · next body st5 hbd =>
                simp only [Except.ok.injEq, Prod.mk.injEq] at h
                obtain ⟨-, rfl⟩ := h
                exact (((postS_bump1 _ hne).trans (expectT_post (by simp) hlp)).trans
                  (ihE _ _ _ hx)).trans
                  ((expectT_post (by simp) hrp).trans (ihSOB _ _ _ hbd))
      -- breakT
      · next hpk =>
        try dsimp only at h
        have hne : peekT st ≠ .eof := by rw [hpk]; simp
        split at h
        · exact absurd h (by simp)
        · next st2 hs =>
          simp only [Except.ok.injEq, Prod.mk.injEq] at h
          obtain ⟨-, rfl⟩ := h
          exact (postS_bump1 _ hne).trans (expectT_post (by simp) hs)
      -- continueT
      · next hpk =>
        try dsimp only at h
        have hne : peekT st ≠ .eof := by rw [hpk]; simp
        split at h
        · exact absurd h (by simp)
        · next st2 hs =>
          simp only [Except.ok.injEq, Prod.mk.injEq] at h
          obtain ⟨-, rfl⟩ := h
          exact (postS_bump1 _ hne).trans (expectT_post (by simp) hs)
      -- ident
      · next name hpk =>
        try dsimp only at h
        by_cases ha : peek2T st = .assign
        · rw [if_pos ha] at h
          split at h
          · exact absurd h (by simp)
          · next name2 st1 hid =>
            split at h
            · exact absurd h (by simp)
            · next st2 has =>
              split at h
              · exact absurd h (by simp)
              · next v st3 hx =>
                split at h
                · exact absurd h (by simp)
                · next st4 hs =>
                  simp only [Except.ok.injEq, Prod.mk.injEq] at h
                  obtain ⟨-, rfl⟩ := h
                  exact (((expectIdentT_post hid).trans
                    (expectT_post (by simp) has)).trans (ihE _ _ _ hx)).trans
                    (expectT_post (by simp) hs)
        · rw [if_neg ha] at h
          exact ihES _ _ _ h
      -- default
      · exact ihES _ _ _ h
    -- parseVarDecl
    · intro st ss st' h
      rw [parseVarDecl] at h
      split at h
      · exact absurd h (by simp)
      · next ty st1 hty =>
        split at h
        · exact absurd h (by simp)
        · next name st2 hid =>
          try dsimp only at h
          have h2 : PostS st st2 := (parseType_post hty).trans (expectIdentT_post hid)
          by_cases ha : peekIs st2 .assign
          · rw [if_pos ha] at h
            have hne : peekT st2 ≠ .eof := by rw [peekIs_true ha]; simp
            cases hx : parseExpr fuel (bumpT st2).2 with
            | error er =>
              rw [hx] at h
              try dsimp only at h
              exact absurd h (by simp)
            | ok p =>
              obtain ⟨einit, st3⟩ := p
              rw [hx] at h
              try dsimp only at h
              split at h
              · exact absurd h (by simp)
              · next st4 hs =>
                simp only [Except.ok.injEq, Prod.mk.injEq] at h
                obtain ⟨-, rfl⟩ := h
                exact (h2.trans ((postS_bump1 _ hne).trans (ihE _ _ _ hx))).trans
                  (expectT_post (by simp) hs)
          · rw [if_neg ha] at h
            try dsimp only at h
            split at h
            · exact absurd h (by simp)
            · next st4 hs =>
              simp only [Except.ok.injEq, Prod.mk.injEq] at h
              obtain ⟨-, rfl⟩ := h
              exact h2.trans (expectT_post (by simp) hs)
    -- parseExprStmt
    · intro st ss st' h
      rw [parseExprStmt] at h
      split at h
      · exact absurd h (by simp)
      · next e st1 hx =>
        split at h
        · exact absurd h (by simp)
        · next st2 hs =>
          simp only [Except.ok.injEq, Prod.mk.injEq] at h
          obtain ⟨-, rfl⟩ := h
          exact (ihE _ _ _ hx).trans (expectT_post (by simp) hs)
    -- parseExpr
    · intro st e st' h
      rw [parseExpr] at h
      exact ihC _ _ _ h
    -- parseCmp
    · intro st e st' h
      rw [parseCmp] at h
      split at h
      · exact absurd h (by simp)
      · next left st1 hx =>
        try dsimp only at h
        have h1 : PostS st st1 := ihA _ _ _ hx
        split at h
        · next o hop =>
          have hne : peekT st1 ≠ .eof := by
            intro hpk
            rw [hpk] at hop
            simp at hop
          split at h
          · exact absurd h (by simp)
          · next right st2 hx2 =>
            simp only [Except.ok.injEq, Prod.mk.injEq] at h
            obtain ⟨-, rfl⟩ := h
            exact h1.trans ((postS_bump1 _ hne).trans (ihA _ _ _ hx2))
        · next hop =>
          simp only [Except.ok.injEq, Prod.mk.injEq] at h
          obtain ⟨-, rfl⟩ := h
          exact h1
    -- parseAdd
    · intro st e st' h
      rw [parseAdd] at h
      split at h
      · exact absurd h (by simp)
      · next e1 st1 hx =>
        exact (ihM _ _ _ hx).transL (ihAL _ _ _ _ h)
    -- parseAddLoop
    · intro e0 st e st' h
      rw [parseAddLoop] at h
      try dsimp only at h
      split at h
      · next o hop =>
        have hne : peekT st ≠ .eof := by
          intro hpk
          rw [hpk] at hop
          simp at hop
        split at h
        · exact absurd h (by simp)
        · next r st1 hx =>
          exact PostL.ofS (((postS_bump1 _ hne).trans (ihM _ _ _ hx)).transL (ihAL _ _ _ _ h))
      · next hop =>
        simp only [Except.ok.injEq, Prod.mk.injEq] at h
        obtain ⟨-, rfl⟩ := h
        exact PostL_self
    -- parseMul
    · intro st e st' h
      rw [parseMul] at h
      split at h
      · exact absurd h (by simp)
      · next e1 st1 hx =>
        exact (ihP _ _ _ hx).transL (ihML _ _ _ _ h)
    -- parseMulLoop
    · intro e0 st e st' h
      rw [parseMulLoop] at h
      by_cases hstar : peekIs st .star
      · rw [if_pos hstar] at h
        have hne : peekT st ≠ .eof := by rw [peekIs_true hstar]; simp
        split at h
        · exact absurd h (by simp)
        · next r st1 hx =>
          exact PostL.ofS (((postS_bump1 _ hne).trans (ihP _ _ _ hx)).transL (ihML _ _ _ _ h))
      · rw [if_neg hstar] at h
        simp only [Except.ok.injEq, Prod.mk.injEq] at h
        obtain ⟨-, rfl⟩ := h
        exact PostL_self
    -- parsePrimary
    · intro st e st' h
      rw [parsePrimary] at h
      unfold bumpT at h
      try dsimp only at h
      split at h
      · next v st1 hpk =>
        simp only [Prod.mk.injEq] at hpk
        simp only [Except.ok.injEq, Prod.mk.injEq] at h
        obtain ⟨-, rfl⟩ := h
        rw [← hpk.2]
        exact postS_bump1 _ (by rw [hpk.1]; simp)
      · next name st1 hpk =>
        simp only [Prod.mk.injEq] at hpk
        simp only [Except.ok.injEq, Prod.mk.injEq] at h
        obtain ⟨-, rfl⟩ := h
        rw [← hpk.2]
        exact postS_bump1 _ (by rw [hpk.1]; simp)
      · next st1 hpk =>
        simp only [Prod.mk.injEq] at hpk
        simp only [Except.ok.injEq, Prod.mk.injEq] at h
        obtain ⟨-, rfl⟩ := h
        rw [← hpk.2]
        exact postS_bump1 _ (by rw [hpk.1]; simp)
      · next st1 hpk =>
        simp only [Prod.mk.injEq] at hpk
        simp only [Except.ok.injEq, Prod.mk.injEq] at h
        obtain ⟨-, rfl⟩ := h
        rw [← hpk.2]
        exact postS_bump1 _ (by rw [hpk.1]; simp)
      · next st1 hpk =>
        simp only [Prod.mk.injEq] at hpk
        split at h
        · exact absurd h (by simp)
        · next e2 st2 hx =>
          split at h
          · exact absurd h (by simp)
          · next st3 hs =>
            simp only [Except.ok.injEq, Prod.mk.injEq] at h
            obtain ⟨-, rfl⟩ := h
            have h0 : PostS st st1 := by
              rw [← hpk.2]
              exact postS_bump1 _ (by rw [hpk.1]; simp)
            exact (h0.trans (ihE _ _ _ hx)).trans (expectT_post (by simp) hs)
      · exact absurd h (by simp)

/-- A consuming step shrinks the remaining-token measure. -/
theorem μp_bound {st st' : ParserSt} (h : PostS st st') : μp st' + 1 ≤ μp st ∧ 1 ≤ μp st := by
  obtain ⟨he, hl, hu⟩ := h
  have hlen : st'.toks.length = st.toks.length := by rw [he]
  unfold μp
  omega

/-- A loop step never grows the remaining-token measure. -/
theorem μpL_bound {st st' : ParserSt} (h : PostL st st') : μp st' ≤ μp st := by
  obtain ⟨he, hl, hu⟩ := h
  have hlen : st'.toks.length = st.toks.length := by rw [he]
  unfold μp
  omega

/-- A string with a prefix of at least twelve characters is not the
fuel-exhaustion message. -/
theorem got_msg_ne_fuelMsg (p b : String) (hp : 12 ≤ p.length) : p ++ b ≠ fuelMsg := by
  intro hc
  have hlen := congrArg String.length hc
  rw [String.length_append] at hlen
  have h11 : fuelMsg.length = 11 := rfl
  omega

/-- `expect` never produces the fuel-exhaustion error. -/
theorem expectT_ne_fuelErr (st : ParserSt) (w : Tok) : expectT st w ≠ .error ⟨fuelMsg⟩ := by
  unfold expectT
  intro hc
  by_cases he : (bumpT st).1 = w
  · rw [if_pos he] at hc
    exact absurd hc (by simp)
  · rw [if_neg he] at hc
    simp only [Except.error.injEq, ParseError.mk.injEq] at hc
    refine got_msg_ne_fuelMsg ("expected " ++ tokDebug w ++ ", got ") (tokDebug (bumpT st).1) ?_ (by simpa [String.append_assoc] using hc)
    rw [String.length_append, String.length_append]
    have h9 : ("expected " : String).length = 9 := rfl
    have h6 : (", got " : String).length = 6 := rfl
    omega

/-- `expect_ident` never produces the fuel-exhaustion error. -/
theorem expectIdentT_ne_fuelErr (st : ParserSt) : expectIdentT st ≠ .error ⟨fuelMsg⟩ := by
  unfold expectIdentT
  intro hc
  split at hc
  · exact absurd hc (by simp)
  · simp only [Except.error.injEq, ParseError.mk.injEq] at hc
    refine got_msg_ne_fuelMsg "expected identifier, got " _ ?_ hc
    have : ("expected identifier, got " : String).length = 25 := rfl
    omega

/-- `parse_type` never produces the fuel-exhaustion error. -/
theorem parseType_ne_fuelErr (st : ParserSt) : parseType st ≠ .error ⟨fuelMsg⟩ := by
  unfold parseType
  intro hc
  dsimp only at hc
  split at hc
  · exact absurd hc (by simp)
  · exact absurd hc (by simp)
  · simp only [Except.error.injEq, ParseError.mk.injEq] at hc
    refine got_msg_ne_fuelMsg "expected type, got " _ ?_ hc
    have : ("expected type, got " : String).length = 19 := rfl
    omega

/-- `parse_primary`'s mismatch error is never the fuel-exhaustion error. -/
theorem primaryMsg_ne_fuelMsg (b : String) : "expected primary, got " ++ b ≠ fuelMsg := by
  refine got_msg_ne_fuelMsg _ _ ?_
  have : ("expected primary, got " : String).length = 22 := rfl
  omega

/-- Bumping over a real token shrinks the measure. -/
theorem μp_bump (st : ParserSt) (h : peekT st ≠ .eof) :
    μp (bumpT st).2 + 1 ≤ μp st ∧ 1 ≤ μp st :=
  μp_bound (postS_bump1 _ h)

/-- With fuel at least eight times the remaining-token measure plus a
small per-routine rank, no parse routine ever reports fuel exhaustion:
the embedded parser's fuel is an artifact, not an observable. -/
theorem parserNoFuel : ∀ fuel : Nat,
    (∀ st gs fs, 8 * μp st + 3 ≤ fuel → parseTUAux fuel st gs fs ≠ .error ⟨fuelMsg⟩) ∧
    (∀ st, 8 * μp st + 2 ≤ fuel → parseGlobalConst fuel st ≠ .error ⟨fuelMsg⟩) ∧
    (∀ st, 8 * μp st + 2 ≤ fuel → parseFunction fuel st ≠ .error ⟨fuelMsg⟩) ∧
    (∀ st acc, 8 * μp st + 2 ≤ fuel → parseParams fuel st acc ≠ .error ⟨fuelMsg⟩) ∧
    (∀ st out, 8 * μp st + 8 ≤ fuel → parseBlockItems fuel st out ≠ .error ⟨fuelMsg⟩) ∧
    (∀ st, 8 * μp st + 2 ≤ fuel → parseBlock fuel st ≠ .error ⟨fuelMsg⟩) ∧
    (∀ st, 8 * μp st + 8 ≤ fuel → parseStmtOrBlock fuel st ≠ .error ⟨fuelMsg⟩) ∧
    (∀ st, 8 * μp st + 7 ≤ fuel → parseStmt fuel st ≠ .error ⟨fuelMsg⟩) ∧
    (∀ st, 8 * μp st + 6 ≤ fuel → parseVarDecl fuel st ≠ .error ⟨fuelMsg⟩) ∧
    (∀ st, 8 * μp st + 6 ≤ fuel → parseExprStmt fuel st ≠ .error ⟨fuelMsg⟩) ∧
    (∀ st, 8 * μp st + 5 ≤ fuel → parseExpr fuel st ≠ .error ⟨fuelMsg⟩) ∧
    (∀ st, 8 * μp st + 4 ≤ fuel → parseCmp fuel st ≠ .error ⟨fuelMsg⟩) ∧
    (∀ st, 8 * μp st + 3 ≤ fuel → parseAdd fuel st ≠ .error ⟨fuelMsg⟩) ∧
    (∀ e0 st, 8 * μp st + 2 ≤ fuel → parseAddLoop fuel e0 st ≠ .error ⟨fuelMsg⟩) ∧
    (∀ st, 8 * μp st + 2 ≤ fuel → parseMul fuel st ≠ .error ⟨fuelMsg⟩) ∧
    (∀ e0 st, 8 * μp st + 1 ≤ fuel → parseMulLoop fuel e0 st ≠ .error ⟨fuelMsg⟩) ∧
    (∀ st, 8 * μp st + 1 ≤ fuel → parsePrimary fuel st ≠ .error ⟨fuelMsg⟩) := by
  intro fuel
  induction fuel with
  | zero =>
    refine ⟨?_, ?_, ?_, ?_, ?_, ?_, ?_, ?_, ?_, ?_, ?_, ?_, ?_, ?_, ?_, ?_, ?_⟩
    · intro st gs fs hle; exact absurd hle (by omega)
    · intro st hle; exact absurd hle (by omega)
    · intro st hle; exact absurd hle (by omega)
    · intro st acc hle; exact absurd hle (by omega)
    · intro st out hle; exact absurd hle (by omega)
    · intro st hle; exact absurd hle (by omega)
    · intro st hle; exact absurd hle (by omega)
    · intro st hle; exact absurd hle (by omega)
    · intro st hle; exact absurd hle (by omega)
    · intro st hle; exact absurd hle (by omega)
    · intro st hle; exact absurd hle (by omega)
    · intro st hle; exact absurd hle (by omega)
    · intro st hle; exact absurd hle (by omega)
    · intro e0 st hle; exact absurd hle (by omega)
    · intro st hle; exact absurd hle (by omega)
    · intro e0 st hle; exact absurd hle (by omega)
    · intro st hle; exact absurd hle (by omega)
  | succ fuel ih =>
    obtain ⟨nTU, nGC, nFn, nPar, nBI, nBlk, nSOB, nStmt, nVD, nES, nE, nC,
      nA, nAL, nM, nML, nP⟩ := ih
    obtain ⟨pGC, pFn, pPar, pBI, pBlk, pSOB, pStmt, pVD, pES, pE, pC,
      pA, pAL, pM, pML, pP⟩ := parserProgress fuel
    refine ⟨?_, ?_, ?_, ?_, ?_, ?_, ?_, ?_, ?_, ?_, ?_, ?_, ?_, ?_, ?_, ?_, ?_⟩
    -- parseTUAux
    · intro st gs fs hle hcontra
      rw [parseTUAux] at hcontra
      by_cases heof : isEofT st
      · rw [if_pos heof] at hcontra
        exact absurd hcontra (by simp)
      · rw [if_neg heof] at hcontra
        by_cases hconst : peekIs st .const
        · rw [if_pos hconst] at hcontra
          split at hcontra
          · next er heq =>
            simp only [Except.error.injEq] at hcontra
            subst hcontra
            exact nGC st (by omega) heq
          · next g st1 heq =>
            have hb := μp_bound (pGC _ _ _ heq)
            exact nTU st1 _ _ (by omega) hcontra
        · rw [if_neg hconst] at hcontra
          split at hcontra
          · next er heq =>
            simp only [Except.error.injEq] at hcontra
            subst hcontra
            exact nFn st (by omega) heq
          · next fc st1 heq =>
            have hb := μp_bound (pFn _ _ _ heq)
            exact nTU st1 _ _ (by omega) hcontra
    -- parseGlobalConst
    · intro st hle hcontra
      rw [parseGlobalConst] at hcontra
      split at hcontra
      · next er heq =>
        simp only [Except.error.injEq] at hcontra
        subst hcontra
        exact expectT_ne_fuelErr _ _ heq
      · next st1 heq1 =>
        have hb1 := μp_bound (expectT_post (by simp) heq1)
        split at hcontra
        · next er heq =>
          simp only [Except.error.injEq] at hcontra
          subst hcontra
          exact parseType_ne_fuelErr _ heq
        · next ty st2 heq2 =>
          have hb2 := μp_bound (parseType_post heq2)
          split at hcontra
          · next er heq =>
            simp only [Except.error.injEq] at hcontra
            subst hcontra
            exact expectIdentT_ne_fuelErr _ heq
          · next name st3 heq3 =>
            have hb3 := μp_bound (expectIdentT_post heq3)
            split at hcontra
            · next er heq =>
              simp only [Except.error.injEq] at hcontra
              subst hcontra
              exact expectT_ne_fuelErr _ _ heq
            · next st4 heq4 =>
              have hb4 := μp_bound (expectT_post (by simp) heq4)
              split at hcontra
              · next er heq =>
                simp only [Except.error.injEq] at hcontra
                subst hcontra
                exact nE st4 (by omega) heq
              · next init st5 heq5 =>
                split at hcontra
                · next er heq =>
                  simp only [Except.error.injEq] at hcontra
                  subst hcontra
                  exact expectT_ne_fuelErr _ _ heq
                · exact absurd hcontra (by simp)
    -- parseFunction
    · intro st hle hcontra
      rw [parseFunction] at hcontra
      split at hcontra
      · next er heq =>
        simp only [Except.error.injEq] at hcontra
        subst hcontra
        exact parseType_ne_fuelErr _ heq
      · next retTy st1 heq1 =>
        have hb1 := μp_bound (parseType_post heq1)
        split at hcontra
        · next er heq =>
          simp only [Except.error.injEq] at hcontra
          subst hcontra
          exact expectIdentT_ne_fuelErr _ heq
        · next name st2 heq2 =>
          have hb2 := μp_bound (expectIdentT_post heq2)
          split at hcontra
          · next er heq =>
            simp only [Except.error.injEq] at hcontra
            subst hcontra
            exact expectT_ne_fuelErr _ _ heq
          · next st3 heq3 =>
            have hb3 := μp_bound (expectT_post (by simp) heq3)
            dsimp only at hcontra
            by_cases hrp : peekIs st3 .rParen
            · rw [if_pos hrp] at hcontra
              dsimp only at hcontra
              split at hcontra
              · next er heq =>
                simp only [Except.error.injEq] at hcontra
                subst hcontra
                exact expectT_ne_fuelErr _ _ heq
              · next st5 heq5 =>
                have hb5 := μp_bound (expectT_post (by simp) heq5)
                split at hcontra
                · next er heq =>
                  simp only [Except.error.injEq] at hcontra
                  subst hcontra
                  exact nBlk st5 (by omega) heq
                · exact absurd hcontra (by simp)
            · rw [if_neg hrp] at hcontra
              split at hcontra
              · next er heq =>
                simp only [Except.error.injEq] at hcontra
                subst hcontra
                exact nPar st3 [] (by omega) heq
              · next ps st4 heq4 =>
                have hb4 := μp_bound (pPar _ _ _ _ heq4)
                split at hcontra
                · next er heq =>
                  simp only [Except.error.injEq] at hcontra
                  subst hcontra
                  exact expectT_ne_fuelErr _ _ heq
                · next st5 heq5 =>
                  have hb5 := μp_bound (expectT_post (by simp) heq5)
                  split at hcontra
                  · next er heq =>
                    simp only [Except.error.injEq] at hcontra
                    subst hcontra
                    exact nBlk st5 (by omega) heq
                  · exact absurd hcontra (by simp)
    -- parseParams
    · intro st acc hle hcontra
      rw [parseParams] at hcontra
      split at hcontra
      · next er heq =>
        simp only [Except.error.injEq] at hcontra
        subst hcontra
        exact parseType_ne_fuelErr _ heq
      · next ty st1 heq1 =>
        have hb1 := μp_bound (parseType_post heq1)
        split at hcontra
        · next er heq =>
          simp only [Except.error.injEq] at hcontra
          subst hcontra
          exact expectIdentT_ne_fuelErr _ heq
        · next pname st2 heq2 =>
          have hb2 := μp_bound (expectIdentT_post heq2)
          try dsimp only at hcontra
          by_cases hc : peekIs st2 .comma
          · rw [if_pos hc] at hcontra
            have hb3 := μp_bump st2 (by rw [peekIs_true hc]; simp)
            exact nPar _ _ (by omega) hcontra
          · rw [if_neg hc] at hcontra
            exact absurd hcontra (by simp)
    -- parseBlockItems
    · intro st out hle hcontra
      rw [parseBlockItems] at hcontra
      by_cases hrb : peekIs st .rBrace
      · rw [if_pos hrb] at hcontra
        exact absurd hcontra (by simp)
      · rw [if_neg hrb] at hcontra
        split at hcontra
        · next er heq =>
          simp only [Except.error.injEq] at hcontra
          subst hcontra
          exact nStmt st (by omega) heq
        · next part st1 heq1 =>
          have hb1 := μp_bound (pStmt _ _ _ heq1)
          exact nBI st1 _ (by omega) hcontra
    -- parseBlock
    · intro st hle hcontra
      rw [parseBlock] at hcontra
      split at hcontra
      · next er heq =>
        simp only [Except.error.injEq] at hcontra
        subst hcontra
        exact expectT_ne_fuelErr _ _ heq
      · next st1 heq1 =>
        have hb1 := μp_bound (expectT_post (by simp) heq1)
        split at hcontra
        · next er heq =>
          simp only [Except.error.injEq] at hcontra
          subst hcontra
          exact nBI st1 [] (by omega) heq
        · next out st2 heq2 =>
          split at hcontra
          · next er heq =>
            simp only [Except.error.injEq] at hcontra
            subst hcontra
            exact expectT_ne_fuelErr _ _ heq
          · exact absurd hcontra (by simp)
    -- parseStmtOrBlock
    · intro st hle hcontra
      rw [parseStmtOrBlock] at hcontra
      by_cases hlb : peekIs st .lBrace
      · rw [if_pos hlb] at hcontra
        exact nBlk st (by omega) hcontra
      · rw [if_neg hlb] at hcontra
        exact nStmt st (by omega) hcontra
    -- parseStmt
    · intro st hle hcontra
      rw [parseStmt] at hcontra
      split at hcontra
      -- lBrace
      · exact nBlk st (by omega) hcontra
      -- returnT
      · next hpk =>
        try dsimp only at hcontra
        have hbb := μp_bump st (by rw [hpk]; simp)
        by_cases hsemi : peekIs (bumpT st).2 .semi
        · rw [if_pos hsemi] at hcontra
          exact absurd hcontra (by simp)
        · rw [if_neg hsemi] at hcontra
          split at hcontra
          · next er heq =>
            simp only [Except.error.injEq] at hcontra
            subst hcontra
            exact nE _ (by omega) heq
          · next e st2 heq2 =>
            split at hcontra
            · next er heq =>
              simp only [Except.error.injEq] at hcontra
              subst hcontra
              exact expectT_ne_fuelErr _ _ heq
            · exact absurd hcontra (by simp)
      -- const
      · next hpk =>
        try dsimp only at hcontra
        have hbb := μp_bump st (by rw [hpk]; simp)
        split at hcontra
        · next er heq =>
          simp only [Except.error.injEq] at hcontra
          subst hcontra
          exact parseType_ne_fuelErr _ heq
        · next ty st2 heq2 =>
          have hb2 := μp_bound (parseType_post heq2)
          split at hcontra
          · next er heq =>
            simp only [Except.error.injEq] at hcontra
            subst hcontra
            exact expectIdentT_ne_fuelErr _ heq
          · next name st3 heq3 =>
            have hb3 := μp_bound (expectIdentT_post heq3)
            split at hcontra
            · next er heq =>
              simp only [Except.error.injEq] at hcontra
              subst hcontra
              exact expectT_ne_fuelErr _ _ heq
            · next st4 heq4 =>
              have hb4 := μp_bound (expectT_post (by simp) heq4)
              split at hcontra
              · next er heq =>
                simp only [Except.error.injEq] at hcontra
                subst hcontra
                exact nE st4 (by omega) heq
              · next init st5 heq5 =>
                split at hcontra
                · next er heq =>
                  simp only [Except.error.injEq] at hcontra
                  subst hcontra
                  exact expectT_ne_fuelErr _ _ heq
                · exact absurd hcontra (by simp)
      -- int
      · exact nVD st (by omega) hcontra
      -- unsigned
      · exact nVD st (by omega) hcontra
      -- ifT
      · next hpk =>
        try dsimp only at hcontra
        have hbb := μp_bump st (by rw [hpk]; simp)
        split at hcontra
        · next er heq =>
          simp only [Except.error.injEq] at hcontra
          subst hcontra
          exact expectT_ne_fuelErr _ _ heq
        · next st2 heq2 =>
          have hb2 := μp_bound (expectT_post (by simp) heq2)
          split at hcontra
          · next er heq =>
            simp only [Except.error.injEq] at hcontra
            subst hcontra
            exact nE st2 (by omega) heq
          · next condExpr st3 heq3 =>
            have hb3 := μp_bound (pE _ _ _ heq3)
            try dsimp only at hcontra
            split at hcontra
            · next er heq =>
              simp only [Except.error.injEq] at hcontra
              subst hcontra
              exact expectT_ne_fuelErr _ _ heq
            · next st4 heq4 =>
              have hb4 := μp_bound (expectT_post (by simp) heq4)
              split at hcontra
              · next er heq =>
                simp only [Except.error.injEq] at hcontra
                subst hcontra
                exact nSOB st4 (by omega) heq
              · next thenBody st5 heq5 =>
                have hb5 := μp_bound (pSOB _ _ _ heq5)
                by_cases hel : peekIs st5 .elseT
                · rw [if_pos hel] at hcontra
                  have hbe := μp_bump st5 (by rw [peekIs_true hel]; simp)
                  split at hcontra
                  · next er heq =>
                    simp only [Except.error.injEq] at hcontra
                    subst hcontra
                    exact nSOB _ (by omega) heq
                  · exact absurd hcontra (by simp)
                · rw [if_neg hel] at hcontra
                  exact absurd hcontra (by simp)
      -- whileT
      · next hpk =>
        try dsimp only at hcontra
        have hbb := μp_bump st (by rw [hpk]; simp)
        split at hcontra
        · next er heq =>
          simp only [Except.error.injEq] at hcontra
          subst hcontra
          exact expectT_ne_fuelErr _ _ heq
        · next st2 heq2 =>
          have hb2 := μp_bound (expectT_post (by simp) heq2)
          split at hcontra
          · next er heq =>
            simp only [Except.error.injEq] at hcontra
            subst hcontra
            exact nE st2 (by omega) heq
          · next condExpr st3 heq3 =>
            have hb3 := μp_bound (pE _ _ _ heq3)
            try dsimp only at hcontra
            split at hcontra
            · next er heq =>
              simp only [Except.error.injEq] at hcontra
              subst hcontra
              exact expectT_ne_fuelErr _ _ heq
            · next st4 heq4 =>
              have hb4 := μp_bound (expectT_post (by simp) heq4)
              split at hcontra
              · next er heq =>
                simp only [Except.error.injEq] at hcontra
                subst hcontra
                exact nSOB st4 (by omega) heq
              · exact absurd hcontra (by simp)
      -- breakT
      · next hpk =>
        try dsimp only at hcontra
        split at hcontra
        · next er heq =>
          simp only [Except.error.injEq] at hcontra
          subst hcontra
          exact expectT_ne_fuelErr _ _ heq
        · exact absurd hcontra (by simp)
      -- continueT
      · next hpk =>
        try dsimp only at hcontra
        split at hcontra
        · next er heq =>
          simp only [Except.error.injEq] at hcontra
          subst hcontra
          exact expectT_ne_fuelErr _ _ heq
        · exact absurd hcontra (by simp)
      -- ident
      · next name hpk =>
        try dsimp only at hcontra
        by_cases ha : peek2T st = .assign
        · rw [if_pos ha] at hcontra
          split at hcontra
          · next er heq =>
            simp only [Except.error.injEq] at hcontra
            subst hcontra
            exact expectIdentT_ne_fuelErr _ heq
          · next name2 st1 heq1 =>
            have hb1 := μp_bound (expectIdentT_post heq1)
            split at hcontra
            · next er heq =>
              simp only [Except.error.injEq] at hcontra
              subst hcontra
              exact expectT_ne_fuelErr _ _ heq
            · next st2 heq2 =>
              have hb2 := μp_bound (expectT_post (by simp) heq2)
              split at hcontra
              · next er heq =>
                simp only [Except.error.injEq] at hcontra
                subst hcontra
                exact nE st2 (by omega) heq
              · next v st3 heq3 =>
                split at hcontra
                · next er heq =>
                  simp only [Except.error.injEq] at hcontra
                  subst hcontra
                  exact expectT_ne_fuelErr _ _ heq
                · exact absurd hcontra (by simp)
        · rw [if_neg ha] at hcontra
          exact nES st (by omega) hcontra
      -- default
      · exact nES st (by omega) hcontra
    -- parseVarDecl
    · intro st hle hcontra
      rw [parseVarDecl] at hcontra
      split at hcontra
      · next er heq =>
        simp only [Except.error.injEq] at hcontra
        subst hcontra
        exact parseType_ne_fuelErr _ heq
      · next ty st1 heq1 =>
        have hb1 := μp_bound (parseType_post heq1)
        split at hcontra
        · next er heq =>
          simp only [Except.error.injEq] at hcontra
          subst hcontra
          exact expectIdentT_ne_fuelErr _ heq
        · next name st2 heq2 =>
          have hb2 := μp_bound (expectIdentT_post heq2)
          try dsimp only at hcontra
          by_cases ha : peekIs st2 .assign
          · rw [if_pos ha] at hcontra
            have hb3 := μp_bump st2 (by rw [peekIs_true ha]; simp)
            cases hx : parseExpr fuel (bumpT st2).2 with
            | error er =>
              rw [hx] at hcontra
              try dsimp only at hcontra
              simp only [Except.error.injEq] at hcontra
              subst hcontra
              exact nE _ (by omega) hx
            | ok p =>
              obtain ⟨einit, st3⟩ := p
              rw [hx] at hcontra
              try dsimp only at hcontra
              split at hcontra
              · next er heq =>
                simp only [Except.error.injEq] at hcontra
                subst hcontra
                exact expectT_ne_fuelErr _ _ heq
              · exact absurd hcontra (by simp)
          · rw [if_neg ha] at hcontra
            try dsimp only at hcontra
            split at hcontra
            · next er heq =>
              simp only [Except.error.injEq] at hcontra
              subst hcontra
              exact expectT_ne_fuelErr _ _ heq
            · exact absurd hcontra (by simp)
    -- parseExprStmt
    · intro st hle hcontra
      rw [parseExprStmt] at hcontra
      split at hcontra
      · next er heq =>
        simp only [Except.error.injEq] at hcontra
        subst hcontra
        exact nE st (by omega) heq
      · next e st1 heq1 =>
        split at hcontra
        · next er heq =>
          simp only [Except.error.injEq] at hcontra
          subst hcontra
          exact expectT_ne_fuelErr _ _ heq
        · exact absurd hcontra (by simp)
    -- parseExpr
    · intro st hle hcontra
      rw [parseExpr] at hcontra
      exact nC st (by omega) hcontra
    -- parseCmp
    · intro st hle hcontra
      rw [parseCmp] at hcontra
      split at hcontra
      · next er heq =>
        simp only [Except.error.injEq] at hcontra
        subst hcontra
        exact nA st (by omega) heq
      · next left st1 heq1 =>
        have hb1 := μp_bound (pA _ _ _ heq1)
        try dsimp only at hcontra
        split at hcontra
        · next o hop =>
          have hne : peekT st1 ≠ .eof := by
            intro hpk
            rw [hpk] at hop
            simp at hop
          have hb2 := μp_bump _ hne
          split at hcontra
          · next er heq =>
            simp only [Except.error.injEq] at hcontra
            subst hcontra
            exact nA _ (by omega) heq
          · exact absurd hcontra (by simp)
        · next hop =>
          exact absurd hcontra (by simp)
    -- parseAdd
    · intro st hle hcontra
      rw [parseAdd] at hcontra
      split at hcontra
      · next er heq =>
        simp only [Except.error.injEq] at hcontra
        subst hcontra
        exact nM st (by omega) heq
      · next e1 st1 heq1 =>
        have hb1 := μp_bound (pM _ _ _ heq1)
        exact nAL _ st1 (by omega) hcontra
    -- parseAddLoop
    · intro e0 st hle hcontra
      rw [parseAddLoop] at hcontra
      try dsimp only at hcontra
      split at hcontra
      · next o hop =>
        have hne : peekT st ≠ .eof := by
          intro hpk
          rw [hpk] at hop
          simp at hop
        have hb0 := μp_bump _ hne
        split at hcontra
        · next er heq =>
          simp only [Except.error.injEq] at hcontra
          subst hcontra
          exact nM _ (by omega) heq
        · next r st1 heq1 =>
          have hb1 := μp_bound (pM _ _ _ heq1)
          exact nAL _ st1 (by omega) hcontra
      · next hop =>
        exact absurd hcontra (by simp)
    -- parseMul
    · intro st hle hcontra
      rw [parseMul] at hcontra
      split at hcontra
      · next er heq =>
        simp only [Except.error.injEq] at hcontra
        subst hcontra
        exact nP st (by omega) heq
      · next e1 st1 heq1 =>
        have hb1 := μp_bound (pP _ _ _ heq1)
        exact nML _ st1 (by omega) hcontra
    -- parseMulLoop
    · intro e0 st hle hcontra
      rw [parseMulLoop] at hcontra
      by_cases hstar : peekIs st .star
      · rw [if_pos hstar] at hcontra
        have hb0 := μp_bump st (by rw [peekIs_true hstar]; simp)
        split at hcontra
        · next er heq =>
          simp only [Except.error.injEq] at hcontra
          subst hcontra
          exact nP _ (by omega) heq
        · next r st1 heq1 =>
          have hb1 := μp_bound (pP _ _ _ heq1)
          exact nML _ st1 (by omega) hcontra
      · rw [if_neg hstar] at hcontra
        exact absurd hcontra (by simp)
    -- parsePrimary
    · intro st hle hcontra
      rw [parsePrimary] at hcontra
      unfold bumpT at hcontra
      try dsimp only at hcontra
      split at hcontra
      · exact absurd hcontra (by simp)
      · exact absurd hcontra (by simp)
      · exact absurd hcontra (by simp)
      · exact absurd hcontra (by simp)
      · next st1 hpk =>
        simp only [Prod.mk.injEq] at hpk
        have hlt : st.i < st.toks.length := peekT_ne_eof_lt st (by rw [hpk.1]; simp)
        split at hcontra
        · next er heq =>
          simp only [Except.error.injEq] at hcontra
          subst hcontra
          refine nE st1 ?_ heq
          rw [← hpk.2]
          unfold μp at hle ⊢
          dsimp only
          omega
        · next e2 st2 heq2 =>
          split at hcontra
          · next er heq =>
            simp only [Except.error.injEq] at hcontra
            subst hcontra
            exact expectT_ne_fuelErr _ _ heq
          · exact absurd hcontra (by simp)
      · simp only [Except.error.injEq, ParseError.mk.injEq] at hcontra
        exact primaryMsg_ne_fuelMsg _ hcontra

/-- The additive-level loop preserves the additive shape: it only ever
extends the accumulated expression by `+`/`-` nodes whose right operands
come from the multiplicative level. -/
theorem parseAddLoop_shape : ∀ (fuel : Nat) (e : Expr) (st : ParserSt) (e' : Expr)
    (st' : ParserSt), AddShape e → parseAddLoop fuel e st = .ok (e', st') → AddShape e' := by
  intro fuel
  induction fuel with
  | zero => intro e st e' st' hsh h; rw [parseAddLoop] at h; exact absurd h (by simp)
  | succ fuel ih =>
    intro e st e' st' hsh h
    rw [parseAddLoop] at h
    revert h
    cases hpk : peekT st <;> intro h <;> try dsimp only at h
    case plus =>
      cases hm : parseMul fuel (bumpT st).2 with
      | error er => rw [hm] at h; exact absurd h (by simp)
      | ok p =>
        obtain ⟨r, st1⟩ := p
        rw [hm] at h
        try dsimp only at h
        exact ih _ _ _ _ (.step hsh (Or.inl rfl) ⟨fuel, _, _, hm⟩) h
    case minus =>
      cases hm : parseMul fuel (bumpT st).2 with
      | error er => rw [hm] at h; exact absurd h (by simp)
      | ok p =>
        obtain ⟨r, st1⟩ := p
        rw [hm] at h
        try dsimp only at h
        exact ih _ _ _ _ (.step hsh (Or.inr rfl) ⟨fuel, _, _, hm⟩) h
    all_goals
      simp only [Except.ok.injEq, Prod.mk.injEq] at h
      rw [← h.1]
      exact hsh

/-- Everything the additive level produces has the additive shape over
multiplicative-level operands. -/
theorem parseAdd_shape (fuel : Nat) (st : ParserSt) (e : Expr) (st' : ParserSt)
    (h : parseAdd fuel st = .ok (e, st')) : AddShape e := by
  cases fuel with
  | zero => rw [parseAdd] at h; exact absurd h (by simp)
  | succ fuel =>
    rw [parseAdd] at h
    cases hm : parseMul fuel st with
    | error er => rw [hm] at h; exact absurd h (by simp)
    | ok p =>
      obtain ⟨e0, st1⟩ := p
      rw [hm] at h
      try dsimp only at h
      exact parseAddLoop_shape fuel e0 st1 e st' (.base ⟨fuel, st, st1, hm⟩) h

/-! ## Claim theorems -/

set_option maxRecDepth 16000

set_option maxHeartbeats 1600000

/-- C4: for every source text on which tokenization succeeds, the
returned token sequence is non-empty, its last element is the
end-of-input token, and no element before the last is an end-of-input
token. -/
theorem claim_C4_token_stream_terminated (src : List Nat) (ts : List Tok)
    (h : lexAll src = .ok ts) :
    ts ≠ [] ∧ ts.getLast? = some Tok.eof ∧
      ∃ ts₀, ts = ts₀ ++ [Tok.eof] ∧ Tok.eof ∉ ts₀ := by
  obtain ⟨ts₀, rfl, hnm⟩ := lexAllAux_end_marker _ src 1 1 ts h
  refine ⟨by simp, ?_, ts₀, rfl, hnm⟩
  rw [List.getLast?_append_cons]
  rfl

/-- Witness for C4 at the source text "1". -/
theorem claim_C4_witness :
    ([Tok.intLit 1, Tok.eof] : List Tok) ≠ [] ∧
      ([Tok.intLit 1, Tok.eof] : List Tok).getLast? = some Tok.eof ∧
      ∃ ts₀, ([Tok.intLit 1, Tok.eof] : List Tok) = ts₀ ++ [Tok.eof] ∧ Tok.eof ∉ ts₀ :=
  claim_C4_token_stream_terminated (strB "1") [Tok.intLit 1, Tok.eof] rfl

/-- C5: maximal munch — wherever the remaining input (after whitespace
and comments) starts with the two bytes of `==`, `!=`, `<=` or `>=`, the
tokenizer emits the single two-character token and consumes both bytes;
in particular tokenizing "<=" yields one `Le` token and never `Lt`
followed by `Assign`. -/
theorem claim_C5_maximal_munch :
    (∀ s l c rest l1 c1, skipWsAndComments s l c = .ok (61 :: 61 :: rest, l1, c1) →
        nextTok s l c = .ok (.eqEq, rest, l1, c1 + 2)) ∧
    (∀ s l c rest l1 c1, skipWsAndComments s l c = .ok (33 :: 61 :: rest, l1, c1) →
        nextTok s l c = .ok (.notEq, rest, l1, c1 + 2)) ∧
    (∀ s l c rest l1 c1, skipWsAndComments s l c = .ok (60 :: 61 :: rest, l1, c1) →
        nextTok s l c = .ok (.le, rest, l1, c1 + 2)) ∧
    (∀ s l c rest l1 c1, skipWsAndComments s l c = .ok (62 :: 61 :: rest, l1, c1) →
        nextTok s l c = .ok (.ge, rest, l1, c1 + 2)) ∧
    lexAll (strB "<=") = .ok [Tok.le, Tok.eof] ∧
    lexAll (strB "<=") ≠ .ok [Tok.lt, Tok.assign, Tok.eof] ∧
    lexAll (strB "==") = .ok [Tok.eqEq, Tok.eof] ∧
    lexAll (strB "!=") = .ok [Tok.notEq, Tok.eof] ∧
    lexAll (strB ">=") = .ok [Tok.ge, Tok.eof] := by
  refine ⟨?_, ?_, ?_, ?_, by decide, by decide, by decide, by decide, by decide⟩
  all_goals
    intro s l c rest l1 c1 h
    simp [nextTok, h, lexCore, List.take_succ_cons]

/-- Witness for C5 instantiating the general `<=` part at the source
text "<=". -/
theorem claim_C5_witness : nextTok (strB "<=") 1 1 = .ok (.le, [], 1, 3) :=
  claim_C5_maximal_munch.2.2.1 (strB "<=") 1 1 [] 1 1 rfl

/-- C6: tokenizing any decimal digit sequence whose mathematical value
fits in the 128-bit signed range yields a single integer-literal token
carrying exactly that value. -/
theorem claim_C6_digit_literal_value (ds : List Nat) (hne : ds ≠ [])
    (hdig : ∀ b ∈ ds, 48 ≤ b ∧ b ≤ 57) (hfit : digitVal ds ≤ 2 ^ 127 - 1) :
    lexAll ds = .ok [Tok.intLit ((digitVal ds : Nat) : Int), Tok.eof] := by
  obtain ⟨d, ds', rfl⟩ := List.exists_cons_of_ne_nil hne
  have hd := hdig d (by simp)
  have htw : (d :: ds').takeWhile isDigitB = d :: ds' :=
    List.takeWhile_eq_self_iff.mpr (fun b hb => by
      have := hdig b hb; simp [isDigitB]; omega)
  have hdw : (d :: ds').dropWhile isDigitB = [] :=
    List.dropWhile_eq_nil_iff.mpr (fun b hb => by
      have := hdig b hb; simp [isDigitB]; omega)
  have hnt : nextTok (d :: ds') 1 1 =
      .ok (.intLit ((d :: ds').foldl accDigit 0), [], 1, 1 + (d :: ds').length) := by
    unfold nextTok
    rw [skipWs_plain (by simp [isWsB]; omega) (by omega)]
    dsimp only
    rw [lexCore_digit hd.1 hd.2, htw, hdw]
  have hv : (d :: ds').foldl accDigit 0 = ((digitVal (d :: ds') : Nat) : Int) := by
    have := digitFold_wrap_eq (d :: ds') 0 hfit (fun b hb => (hdig b hb).1)
    simpa using this
  show lexAllAux ((d :: ds').length + 1) (d :: ds') 1 1 = _
  have hlen : (d :: ds').length + 1 = (ds'.length + 1) + 1 := by simp
  rw [hlen, lexAllAux, hnt]
  dsimp only
  rw [if_neg (by simp), lexAllAux_nil, hv]

/-- Witness for C6 at the digit sequence "123". -/
theorem claim_C6_witness : lexAll (strB "123") = .ok [Tok.intLit ((digitVal (strB "123") : Nat) : Int), Tok.eof] :=
  claim_C6_digit_literal_value (strB "123") (by decide) (by decide) (by decide)

/-- C8: when the tokenizer, after skipping whitespace and comments,
reaches a byte that cannot begin any token (not an operator or
punctuation byte, digit, letter, or underscore), it fails with a
`LexError` whose message names that character (Debug-rendered, so a
printable character such as the dollar sign or the Latin-1 'Ã' appears
literally in quotes) and whose line and column are the 1-based position
of that character; tokenizing "a $ b" fails at line 1, column 3, the
position of the dollar sign, and the UTF-8 bytes of "é" fail at line 1,
column 1 naming the printable lead byte 'Ã'. -/
theorem claim_C8_unexpected_char :
    (∀ s l c b rest l1 c1, skipWsAndComments s l c = .ok (b :: rest, l1, c1) →
        tokenStartByte b = false →
        nextTok s l c = .error ⟨unexpectedCharMsg b, l1, c1⟩) ∧
    lexAll (strB "a $ b") = .error ⟨"unexpected char: '$'", 1, 3⟩ ∧
    lexAll [195, 169] = .error ⟨"unexpected char: 'Ã'", 1, 1⟩ := by
  refine ⟨?_, by decide, by decide⟩
  · intro s l c b rest l1 c1 hskip hb
    simp only [tokenStartByte, List.mem_cons, List.not_mem_nil, or_false,
      Bool.or_eq_false_iff, decide_eq_false_iff_not] at hb
    obtain ⟨⟨⟨hmem, hdig⟩, halpha⟩, h95⟩ := hb
    have h33 : b ≠ 33 := fun hc => hmem (by simp [hc])
    have h40 : b ≠ 40 := fun hc => hmem (by simp [hc])
    have h41 : b ≠ 41 := fun hc => hmem (by simp [hc])
    have h42 : b ≠ 42 := fun hc => hmem (by simp [hc])
    have h43 : b ≠ 43 := fun hc => hmem (by simp [hc])
    have h44 : b ≠ 44 := fun hc => hmem (by simp [hc])
    have h45 : b ≠ 45 := fun hc => hmem (by simp [hc])
    have h59 : b ≠ 59 := fun hc => hmem (by simp [hc])
    have h60 : b ≠ 60 := fun hc => hmem (by simp [hc])
    have h61 : b ≠ 61 := fun hc => hmem (by simp [hc])
    have h62 : b ≠ 62 := fun hc => hmem (by simp [hc])
    have h123 : b ≠ 123 := fun hc => hmem (by simp [hc])
    have h125 : b ≠ 125 := fun hc => hmem (by simp [hc])
    unfold nextTok
    rw [hskip]
    simp [lexCore, List.take_succ_cons, h33, h40, h41, h42, h43, h44, h45,
      h59, h60, h61, h62, h123, h125, hdig, halpha, h95]

/-- Witness for C8 instantiating the general part at the remaining input
of "a $ b" just before the dollar sign. -/
theorem claim_C8_witness :
    nextTok [36, 32, 98] 1 3 = .error ⟨unexpectedCharMsg 36, 1, 3⟩ :=
  claim_C8_unexpected_char.1 [36, 32, 98] 1 3 36 [32, 98] 1 3 rfl rfl

/-- C9: `parse_type` accepts the token pair `unsigned` `void` and
returns the `Void` type, silently discarding the qualifier; the
signedness flag read from the optional `unsigned` token affects the
result only when the following token is `int`, where it clears `signed`
on the 32-bit integer type. -/
theorem claim_C9_unsigned_void_discarded :
    (∀ st : ParserSt, peekT st = .unsigned → peek2T st = .void →
        parseType st = .ok (.void, ⟨st.toks, st.i + 2⟩)) ∧
    (∀ st : ParserSt, peekT st = .unsigned → peek2T st = .int →
        parseType st = .ok (.intT 32 false, ⟨st.toks, st.i + 2⟩)) ∧
    (∀ st : ParserSt, peekT st = .int →
        parseType st = .ok (.intT 32 true, ⟨st.toks, st.i + 1⟩)) ∧
    (∀ st : ParserSt, peekT st = .void →
        parseType st = .ok (.void, ⟨st.toks, st.i + 1⟩)) := by
  refine ⟨?_, ?_, ?_, ?_⟩
  · intro st h1 h2
    have h2' : peekT ⟨st.toks, st.i + 1⟩ = .void := h2
    simp [parseType, peekIs, bumpT, h1, h2']
  · intro st h1 h2
    have h2' : peekT ⟨st.toks, st.i + 1⟩ = .int := h2
    simp [parseType, peekIs, bumpT, h1, h2']
  · intro st h1
    simp [parseType, peekIs, bumpT, h1]
  · intro st h1
    simp [parseType, peekIs, bumpT, h1]

/-- Witness for C9 at the token pairs `unsigned void` and `unsigned int`. -/
theorem claim_C9_witness :
    parseType ⟨[.unsigned, .void], 0⟩ = .ok (.void, ⟨[.unsigned, .void], 2⟩) ∧
    parseType ⟨[.unsigned, .int], 0⟩ = .ok (.intT 32 false, ⟨[.unsigned, .int], 2⟩) :=
  ⟨claim_C9_unsigned_void_discarded.1 ⟨[.unsigned, .void], 0⟩ rfl rfl,
   claim_C9_unsigned_void_discarded.2.1 ⟨[.unsigned, .int], 0⟩ rfl rfl⟩

/-- C7: a brace-delimited block in statement position contributes its
statements directly to the enclosing sequence — `parse_stmt` on a left
brace is exactly `parse_block`, and the parsed function bodies are flat
two-element sequences with no wrapping node, even when one declaration
sits in a nested block. -/
theorem claim_C7_block_flattening :
    (∀ (fuel : Nat) (st : ParserSt), peekT st = .lBrace →
        parseStmt (fuel + 1) st = parseBlock fuel st) ∧
    parseTranslationUnit (strB "int f() { int a = 1; int b = 2; }") =
      .ok ⟨[], [⟨strB "f", [], .intT 32 true,
        [.varDecl (strB "a") (.intT 32 true) (some (.lit (.intL 32 true 1))),
         .varDecl (strB "b") (.intT 32 true) (some (.lit (.intL 32 true 2)))]⟩]⟩ ∧
    parseTranslationUnit (strB "int f() { { int a = 1; } int b = 2; }") =
      .ok ⟨[], [⟨strB "f", [], .intT 32 true,
        [.varDecl (strB "a") (.intT 32 true) (some (.lit (.intL 32 true 1))),
         .varDecl (strB "b") (.intT 32 true) (some (.lit (.intL 32 true 2)))]⟩]⟩ := by
  refine ⟨?_, rfl, rfl⟩
  intro fuel st h
  rw [parseStmt, h]

/-- Witness for C7 instantiating the dispatch part on the token sequence
of an empty block. -/
theorem claim_C7_witness :
    parseStmt 21 ⟨[.lBrace, .rBrace], 0⟩ = parseBlock 20 ⟨[.lBrace, .rBrace], 0⟩ :=
  claim_C7_block_flattening.1 20 ⟨[.lBrace, .rBrace], 0⟩ rfl

/-- C1: the condition stored by the parser for every `if` and `while`
statement is the parsed controlling expression passed through
`ensure_bool`: comparisons and boolean literals are kept unchanged,
anything else becomes a not-equal comparison against the signed 32-bit
integer literal zero; "if (x) {}" stores `Cmp{Var x, Ne, Lit 0}` and
"if (x == 1) {}" stores `Cmp{Var x, Eq, Lit 1}` unchanged. -/
theorem claim_C1_condition_normalization :
    (∀ l o r, ensureBool (.cmp l o r) = .cmp l o r) ∧
    (∀ b, ensureBool (.lit (.boolL b)) = .lit (.boolL b)) ∧
    (∀ e, (∀ l o r, e ≠ .cmp l o r) → (∀ b, e ≠ .lit (.boolL b)) →
        ensureBool e = .cmp e .ne (.lit (.intL 32 true 0))) ∧
    (∀ fuel st ss st', peekT st = .ifT → parseStmt (fuel + 1) st = .ok (ss, st') →
        ∃ ce stB tb eb, parseExpr fuel ⟨st.toks, st.i + 2⟩ = .ok (ce, stB) ∧
          ss = [.ifS (ensureBool ce) tb eb]) ∧
    (∀ fuel st ss st', peekT st = .whileT → parseStmt (fuel + 1) st = .ok (ss, st') →
        ∃ ce stB body, parseExpr fuel ⟨st.toks, st.i + 2⟩ = .ok (ce, stB) ∧
          ss = [.whileS (ensureBool ce) body]) ∧
    (lexAll (strB "if (x) {}") =
        .ok [.ifT, .lParen, .ident (strB "x"), .rParen, .lBrace, .rBrace, .eof] ∧
      parseStmt 32 ⟨[.ifT, .lParen, .ident (strB "x"), .rParen, .lBrace, .rBrace, .eof], 0⟩ =
        .ok ([.ifS (.cmp (.var (strB "x")) .ne (.lit (.intL 32 true 0))) [] []],
          ⟨[.ifT, .lParen, .ident (strB "x"), .rParen, .lBrace, .rBrace, .eof], 6⟩)) ∧
    (lexAll (strB "if (x == 1) {}") =
        .ok [.ifT, .lParen, .ident (strB "x"), .eqEq, .intLit 1, .rParen, .lBrace, .rBrace, .eof] ∧
      parseStmt 32 ⟨[.ifT, .lParen, .ident (strB "x"), .eqEq, .intLit 1, .rParen, .lBrace, .rBrace, .eof], 0⟩ =
        .ok ([.ifS (.cmp (.var (strB "x")) .eq (.lit (.intL 32 true 1))) [] []],
          ⟨[.ifT, .lParen, .ident (strB "x"), .eqEq, .intLit 1, .rParen, .lBrace, .rBrace, .eof], 8⟩)) := by
  refine ⟨fun l o r => rfl, fun b => rfl, ?_, ?_, ?_, ⟨by decide, rfl⟩, ⟨by decide, rfl⟩⟩
  · intro e hcmp hbool
    match e with
    | .lit (.intL _ _ _) => rfl
    | .lit (.boolL b) => exact absurd rfl (hbool b)
    | .var _ => rfl
    | .binary _ _ _ => rfl
    | .cmp l o r => exact absurd rfl (hcmp l o r)
  · intro fuel st ss st' hpeek h
    rw [parseStmt, hpeek] at h
    try dsimp only at h
    cases hLP : expectT (bumpT st).2 .lParen with
    | error e => rw [hLP] at h; exact absurd h (by simp)
    | ok st2 =>
      rw [hLP] at h
      try dsimp only at h
      obtain ⟨_, hst2⟩ := expectT_ok hLP
      cases hPE : parseExpr fuel st2 with
      | error e => rw [hPE] at h; exact absurd h (by simp)
      | ok p =>
        obtain ⟨ce, st3⟩ := p
        rw [hPE] at h
        try dsimp only at h
        cases hRP : expectT st3 .rParen with
        | error e => rw [hRP] at h; exact absurd h (by simp)
        | ok st4 =>
          rw [hRP] at h
          try dsimp only at h
          cases hTB : parseStmtOrBlock fuel st4 with
          | error e => rw [hTB] at h; exact absurd h (by simp)
          | ok p2 =>
            obtain ⟨tb, st5⟩ := p2
            rw [hTB] at h
            try dsimp only at h
            subst hst2
            by_cases hE : peekIs st5 .elseT
            · rw [if_pos hE] at h
              cases hEB : parseStmtOrBlock fuel (bumpT st5).2 with
              | error e => rw [hEB] at h; exact absurd h (by simp)
              | ok p3 =>
                obtain ⟨eb, st6⟩ := p3
                rw [hEB] at h
                try dsimp only at h
                simp only [Except.ok.injEq, Prod.mk.injEq] at h
                exact ⟨ce, st3, tb, eb, hPE, h.1.symm⟩
            · rw [if_neg hE] at h
              simp only [Except.ok.injEq, Prod.mk.injEq] at h
              exact ⟨ce, st3, tb, [], hPE, h.1.symm⟩
  · intro fuel st ss st' hpeek h
    rw [parseStmt, hpeek] at h
    try dsimp only at h
    cases hLP : expectT (bumpT st).2 .lParen with
    | error e => rw [hLP] at h; exact absurd h (by simp)
    | ok st2 =>
      rw [hLP] at h
      try dsimp only at h
      obtain ⟨_, hst2⟩ := expectT_ok hLP
      cases hPE : parseExpr fuel st2 with
      | error e => rw [hPE] at h; exact absurd h (by simp)
      | ok p =>
        obtain ⟨ce, st3⟩ := p
        rw [hPE] at h
        try dsimp only at h
        cases hRP : expectT st3 .rParen with
        | error e => rw [hRP] at h; exact absurd h (by simp)
        | ok st4 =>
          rw [hRP] at h
          try dsimp only at h
          cases hTB : parseStmtOrBlock fuel st4 with
          | error e => rw [hTB] at h; exact absurd h (by simp)
          | ok p2 =>
            obtain ⟨body, st5⟩ := p2
            rw [hTB] at h
            try dsimp only at h
            subst hst2
            simp only [Except.ok.injEq, Prod.mk.injEq] at h
            exact ⟨ce, st3, body, hPE, h.1.symm⟩

/-- C3: multiplication binds tighter than addition and subtraction —
"1+2*3;" parses to `Add(1, Mul(2, 3))`, and everything the `+`/`-`
level produces is a left fold of `+`/`-` nodes whose operands are
outputs of the `*` level. -/
theorem claim_C3_mul_binds_tighter :
    (∀ fuel st e st', parseAdd fuel st = .ok (e, st') → AddShape e) ∧
    lexAll (strB "1+2*3;") =
      .ok [.intLit 1, .plus, .intLit 2, .star, .intLit 3, .semi, .eof] ∧
    parseStmt 32 ⟨[.intLit 1, .plus, .intLit 2, .star, .intLit 3, .semi, .eof], 0⟩ =
      .ok ([.exprStmt (.binary (.lit (.intL 32 true 1)) .add
            (.binary (.lit (.intL 32 true 2)) .mul (.lit (.intL 32 true 3))))],
        ⟨[.intLit 1, .plus, .intLit 2, .star, .intLit 3, .semi, .eof], 6⟩) :=
  ⟨parseAdd_shape, by decide, rfl⟩

/-- Witness for C3 applying the shape part to the additive expression
parsed from the tokens of "1+2*3". -/
theorem claim_C3_witness :
    AddShape (.binary (.lit (.intL 32 true 1)) .add
      (.binary (.lit (.intL 32 true 2)) .mul (.lit (.intL 32 true 3)))) :=
  claim_C3_mul_binds_tighter.1 8 ⟨[.intLit 1, .plus, .intLit 2, .star, .intLit 3], 0⟩ _
    ⟨[.intLit 1, .plus, .intLit 2, .star, .intLit 3], 5⟩ rfl

/-- C2: a statement led by an identifier parses to an assignment exactly
when the token one past the identifier is `=`; otherwise it parses to an
expression statement.  "x;" gives `ExprStmt(Var x)` and "x = 1;" gives
`Assign{x, Lit 1}`. -/
theorem claim_C2_ident_statement_disambiguation :
    (∀ fuel st name ss st', peekT st = .ident name →
        parseStmt (fuel + 1) st = .ok (ss, st') →
        ((peek2T st = .assign → ∃ v, ss = [Stmt.assign name v]) ∧
         (peek2T st ≠ .assign → ∃ e, ss = [Stmt.exprStmt e]))) ∧
    (lexAll (strB "x;") = .ok [.ident (strB "x"), .semi, .eof] ∧
      parseStmt 32 ⟨[.ident (strB "x"), .semi, .eof], 0⟩ =
        .ok ([.exprStmt (.var (strB "x"))], ⟨[.ident (strB "x"), .semi, .eof], 2⟩)) ∧
    (lexAll (strB "x = 1;") = .ok [.ident (strB "x"), .assign, .intLit 1, .semi, .eof] ∧
      parseStmt 32 ⟨[.ident (strB "x"), .assign, .intLit 1, .semi, .eof], 0⟩ =
        .ok ([.assign (strB "x") (.lit (.intL 32 true 1))],
          ⟨[.ident (strB "x"), .assign, .intLit 1, .semi, .eof], 4⟩)) := by
  refine ⟨?_, ⟨by decide, rfl⟩, ⟨by decide, rfl⟩⟩
  intro fuel st name ss st' hpeek h
  rw [parseStmt, hpeek] at h
  try dsimp only at h
  constructor
  · intro ha
    rw [if_pos ha, expectIdentT_ident hpeek] at h
    try dsimp only at h
    cases hA : expectT ⟨st.toks, st.i + 1⟩ .assign with
    | error e => rw [hA] at h; exact absurd h (by simp)
    | ok st2 =>
      rw [hA] at h
      try dsimp only at h
      cases hPE : parseExpr fuel st2 with
      | error e => rw [hPE] at h; exact absurd h (by simp)
      | ok p =>
        obtain ⟨v, st3⟩ := p
        rw [hPE] at h
        try dsimp only at h
        cases hS : expectT st3 .semi with
        | error e => rw [hS] at h; exact absurd h (by simp)
        | ok st4 =>
          rw [hS] at h
          simp only [Except.ok.injEq, Prod.mk.injEq] at h
          exact ⟨v, h.1.symm⟩
  · intro ha
    rw [if_neg ha] at h
    cases fuel with
    | zero => rw [parseExprStmt] at h; exact absurd h (by simp)
    | succ fuel =>
      rw [parseExprStmt] at h
      cases hPE : parseExpr fuel st with
      | error e => rw [hPE] at h; exact absurd h (by simp)
      | ok p =>
        obtain ⟨e, st1⟩ := p
        rw [hPE] at h
        try dsimp only at h
        cases hS : expectT st1 .semi with
        | error er => rw [hS] at h; exact absurd h (by simp)
        | ok st2 =>
          rw [hS] at h
          simp only [Except.ok.injEq, Prod.mk.injEq] at h
          exact ⟨e, h.1.symm⟩

/-- Witness for C2 applying the disambiguation part on the tokens of
"x = 1;" and of "x;". -/
theorem claim_C2_witness :
    (∃ v, ([Stmt.assign (strB "x") (.lit (.intL 32 true 1))] : List Stmt) =
      [Stmt.assign (strB "x") v]) ∧
    (∃ e, ([Stmt.exprStmt (.var (strB "x"))] : List Stmt) = [Stmt.exprStmt e]) :=
  ⟨(claim_C2_ident_statement_disambiguation.1 31
      ⟨[.ident (strB "x"), .assign, .intLit 1, .semi, .eof], 0⟩ (strB "x")
      [Stmt.assign (strB "x") (.lit (.intL 32 true 1))]
      ⟨[.ident (strB "x"), .assign, .intLit 1, .semi, .eof], 4⟩ rfl rfl).1 rfl,
   (claim_C2_ident_statement_disambiguation.1 31
      ⟨[.ident (strB "x"), .semi, .eof], 0⟩ (strB "x")
      [Stmt.exprStmt (.var (strB "x"))]
      ⟨[.ident (strB "x"), .semi, .eof], 2⟩ rfl rfl).2 (by decide)⟩

/-- C10: the cursor primitives are total over any token vector — `peek`
and `peek2` return the end-of-input token past the end, `bump` returns
it instead of failing — so parsing any token sequence (even one without
an end marker) returns a `Program` or a `ParseError` and never an
out-of-bounds access or a fuel artifact; an `expect` at end of input
reports an error naming the `Eof` token actually encountered. -/
theorem claim_C10_parser_totality :
    (∀ (toks : List Tok) (i : Nat), toks.length ≤ i → peekT ⟨toks, i⟩ = .eof) ∧
    (∀ (toks : List Tok) (i : Nat), toks.length ≤ i + 1 → peek2T ⟨toks, i⟩ = .eof) ∧
    (∀ (toks : List Tok) (i : Nat), toks.length ≤ i →
        bumpT ⟨toks, i⟩ = (.eof, ⟨toks, i + 1⟩)) ∧
    (∀ (toks : List Tok) (i : Nat) (w : Tok), toks.length ≤ i → w ≠ .eof →
        expectT ⟨toks, i⟩ w = .error ⟨"expected " ++ tokDebug w ++ ", got Eof"⟩) ∧
    (∀ toks : List Tok, parseProgram toks ≠ .error ⟨fuelMsg⟩) := by
  have hpk : ∀ (toks : List Tok) (i : Nat), toks.length ≤ i → peekT ⟨toks, i⟩ = .eof := by
    intro toks i hi
    simp [peekT, List.getD, List.getElem?_eq_none hi]
  refine ⟨hpk, ?_, ?_, ?_, ?_⟩
  · intro toks i hi
    exact hpk toks (i + 1) hi
  · intro toks i hi
    unfold bumpT
    rw [hpk toks i hi]
  · intro toks i w hi hw
    unfold expectT bumpT
    dsimp only
    rw [hpk toks i hi, if_neg (fun hc => hw hc.symm)]
    have h1 : tokDebug Tok.eof = "Eof" := rfl
    have h2 : (", got " : String) ++ "Eof" = ", got Eof" := rfl
    rw [h1, String.append_assoc, h2]
  · intro toks
    refine (parserNoFuel (pFuel toks)).1 ⟨toks, 0⟩ [] [] ?_
    unfold μp pFuel
    dsimp only
    omega

/-- Witness for C10 applying the expect-at-end part for a `Semi` at the
empty token vector, and the no-fuel-artifact part at a vector not ending
in `Eof`. -/
theorem claim_C10_witness :
    expectT ⟨[], 0⟩ .semi = .error ⟨"expected Semi, got Eof"⟩ ∧
    parseProgram [Tok.int] ≠ .error ⟨fuelMsg⟩ :=
  ⟨claim_C10_parser_totality.2.2.2.1 [] 0 .semi (by decide) (by decide),
   claim_C10_parser_totality.2.2.2.2 [Tok.int]⟩

/-- Witness for C1 applying the if-statement part on the tokens of
"if (x) {}". -/
theorem claim_C1_witness :
    ∃ ce stB tb eb,
      parseExpr 31 ⟨[Tok.ifT, .lParen, .ident (strB "x"), .rParen, .lBrace, .rBrace, .eof], 2⟩ =
        .ok (ce, stB) ∧
      ([Stmt.ifS (.cmp (.var (strB "x")) .ne (.lit (.intL 32 true 0))) [] []] : List Stmt) =
        [.ifS (ensureBool ce) tb eb] :=
  claim_C1_condition_normalization.2.2.2.1 31
    ⟨[Tok.ifT, .lParen, .ident (strB "x"), .rParen, .lBrace, .rBrace, .eof], 0⟩
    [Stmt.ifS (.cmp (.var (strB "x")) .ne (.lit (.intL 32 true 0))) [] []]
    ⟨[Tok.ifT, .lParen, .ident (strB "x"), .rParen, .lBrace, .rBrace, .eof], 6⟩
    rfl rfl

end WhaleC
